import Mathlib

/-!
Verification of the schema-diff engine in `src/detectBreakingChanges.ts` of
detect-breaking-graphql-changes.

The TypeScript source is shallowly embedded: GraphQL type references,
default values, AST location/directive data, type definitions and schemas
become inductive types; each function of the source file becomes a Lean
definition of the same name, translated clause by clause.  JS maps
(`getTypeMap()`, `getFields()`) are represented as lists whose key is the
entry's `name`; a JS map lookup becomes `List.find?` on the name, which
agrees with the map exactly when the names are distinct (always true for
maps built by the external `buildSchema`).  JS exceptions are represented
with `Except`.
-/

/-- GraphQL type reference: named type, list wrapper or non-null wrapper
(`GraphQLType` restricted to the shapes the diff engine inspects via
`isListType` / `isNonNullType` / `isNamedType`). -/
inductive TypeRef where
  | named (name : String)
  | list (ofType : TypeRef)
  | nonNull (ofType : TypeRef)
deriving DecidableEq, Repr

/-- `isNonNullType` from the graphql package. -/
def TypeRef.isNonNullType : TypeRef → Bool
  | .nonNull _ => true
  | _ => false

/-- `isListType` from the graphql package. -/
def TypeRef.isListType : TypeRef → Bool
  | .list _ => true
  | _ => false

/-- `isNamedType` from the graphql package. -/
def TypeRef.isNamedType : TypeRef → Bool
  | .named _ => true
  | _ => false

/-- `GraphQLType.toString()`: `[X]` for lists, `X!` for non-null. -/
def TypeRef.toString : TypeRef → String
  | .named n => n
  | .list t => "[" ++ t.toString ++ "]"
  | .nonNull t => t.toString ++ "!"

/-- The innermost named type of a reference. -/
def TypeRef.coreName : TypeRef → String
  | .named n => n
  | .list t => t.coreName
  | .nonNull t => t.coreName

/-- `isChangeSafeForObjectOrInterfaceField` (source lines 297-331): the
output-position compatibility check.  Each match arm is one branch of the
source's `if` chain; the `||`-disjunctions of the source split into arms on
the disjoint shapes of `newType`. -/
def isChangeSafeForObjectOrInterfaceField : TypeRef → TypeRef → Bool
  -- old is a list: both lists with compatible inner types, or
  -- new is non-null of something compatible with the old list
  | .list oldOf, .list newOf => isChangeSafeForObjectOrInterfaceField oldOf newOf
  | .list oldOf, .nonNull newOf =>
      isChangeSafeForObjectOrInterfaceField (.list oldOf) newOf
  | .list _, .named _ => false
  -- old is non-null: only non-null of a compatible inner type
  | .nonNull oldOf, .nonNull newOf => isChangeSafeForObjectOrInterfaceField oldOf newOf
  | .nonNull _, .named _ => false
  | .nonNull _, .list _ => false
  -- old is named: same name, or non-null of something compatible
  | .named oldName, .named newName => oldName == newName
  | .named oldName, .nonNull newOf =>
      isChangeSafeForObjectOrInterfaceField (.named oldName) newOf
  | .named _, .list _ => false

/-- `isChangeSafeForInputObjectFieldOrFieldArg` (source lines 333-363): the
input-position compatibility check. -/
def isChangeSafeForInputObjectFieldOrFieldArg : TypeRef → TypeRef → Bool
  -- old is a list: both must be lists with compatible inner types
  | .list oldOf, .list newOf => isChangeSafeForInputObjectFieldOrFieldArg oldOf newOf
  | .list _, .named _ => false
  | .list _, .nonNull _ => false
  -- old is non-null: both non-null with compatible inner types, or
  -- new not non-null and compatible with the old inner type
  | .nonNull oldOf, .nonNull newOf =>
      isChangeSafeForInputObjectFieldOrFieldArg oldOf newOf
  | .nonNull oldOf, .named newName =>
      isChangeSafeForInputObjectFieldOrFieldArg oldOf (.named newName)
  | .nonNull oldOf, .list newOf =>
      isChangeSafeForInputObjectFieldOrFieldArg oldOf (.list newOf)
  -- old is named: both named with equal names
  | .named oldName, .named newName => oldName == newName
  | .named _, .list _ => false
  | .named _, .nonNull _ => false

/-- The output-position compatibility relation as the specification words it:
a list is safe against a list of a safe inner type or against a non-null of
a compatible reference; non-null only against non-null of a safe inner type;
a named type against itself or against a non-null of a compatible reference. -/
inductive OutputPositionSafe : TypeRef → TypeRef → Prop where
  | listList {x y : TypeRef} :
      OutputPositionSafe x y → OutputPositionSafe (.list x) (.list y)
  | listNonNull {x y : TypeRef} :
      OutputPositionSafe (.list x) y → OutputPositionSafe (.list x) (.nonNull y)
  | nonNullNonNull {x y : TypeRef} :
      OutputPositionSafe x y → OutputPositionSafe (.nonNull x) (.nonNull y)
  | namedSame {n : String} : OutputPositionSafe (.named n) (.named n)
  | namedNonNull {n : String} {y : TypeRef} :
      OutputPositionSafe (.named n) y → OutputPositionSafe (.named n) (.nonNull y)

theorem outputSafe_refl (t : TypeRef) :
    isChangeSafeForObjectOrInterfaceField t t = true := by
  induction t with
  | named n => simp [isChangeSafeForObjectOrInterfaceField]
  | list t ih => simpa [isChangeSafeForObjectOrInterfaceField] using ih
  | nonNull t ih => simpa [isChangeSafeForObjectOrInterfaceField] using ih

theorem inputSafe_refl (t : TypeRef) :
    isChangeSafeForInputObjectFieldOrFieldArg t t = true := by
  induction t with
  | named n => simp [isChangeSafeForInputObjectFieldOrFieldArg]
  | list t ih => simpa [isChangeSafeForInputObjectFieldOrFieldArg] using ih
  | nonNull t ih => simpa [isChangeSafeForInputObjectFieldOrFieldArg] using ih

/-- Relaxing a required input to optional is always accepted by the
input-position check. -/
theorem inputSafe_nonNull_to_inner (t : TypeRef) :
    isChangeSafeForInputObjectFieldOrFieldArg (.nonNull t) t = true := by
  induction t with
  | named n => simp [isChangeSafeForInputObjectFieldOrFieldArg]
  | list t _ =>
      simpa [isChangeSafeForInputObjectFieldOrFieldArg] using inputSafe_refl t
  | nonNull t ih => simpa [isChangeSafeForInputObjectFieldOrFieldArg] using ih

/-- Wrapping a (not already non-null) input type in non-null is rejected by
the input-position check. -/
theorem inputSafe_to_nonNull_false (t : TypeRef) (h : t.isNonNullType = false) :
    isChangeSafeForInputObjectFieldOrFieldArg t (.nonNull t) = false := by
  cases t with
  | named n => simp [isChangeSafeForInputObjectFieldOrFieldArg]
  | list t => simp [isChangeSafeForInputObjectFieldOrFieldArg]
  | nonNull t => simp [TypeRef.isNonNullType] at h

theorem outputSafe_iff_spec (o n : TypeRef) :
    (isChangeSafeForObjectOrInterfaceField o n = true ↔ OutputPositionSafe o n) := by
  constructor
  · intro h
    induction n generalizing o with
    | named m =>
        cases o with
        | named k =>
            simp [isChangeSafeForObjectOrInterfaceField] at h
            subst h; exact .namedSame
        | list t => simp [isChangeSafeForObjectOrInterfaceField] at h
        | nonNull t => simp [isChangeSafeForObjectOrInterfaceField] at h
    | list m ih =>
        cases o with
        | named k => simp [isChangeSafeForObjectOrInterfaceField] at h
        | list t =>
            exact .listList (ih t h)
        | nonNull t => simp [isChangeSafeForObjectOrInterfaceField] at h
    | nonNull m ih =>
        cases o with
        | named k =>
            exact .namedNonNull (ih _ h)
        | list t =>
            exact .listNonNull (ih _ h)
        | nonNull t =>
            exact .nonNullNonNull (ih t h)
  · intro h
    induction h with
    | listList _ ih => simpa [isChangeSafeForObjectOrInterfaceField] using ih
    | listNonNull _ ih => simpa [isChangeSafeForObjectOrInterfaceField] using ih
    | nonNullNonNull _ ih => simpa [isChangeSafeForObjectOrInterfaceField] using ih
    | namedSame => simp [isChangeSafeForObjectOrInterfaceField]
    | namedNonNull _ ih => simpa [isChangeSafeForObjectOrInterfaceField] using ih

theorem outputSafe_coreName (o n : TypeRef)
    (h : isChangeSafeForObjectOrInterfaceField o n = true) :
    o.coreName = n.coreName := by
  induction n generalizing o with
  | named m =>
      cases o with
      | named k =>
          simp [isChangeSafeForObjectOrInterfaceField] at h
          simp [h, TypeRef.coreName]
      | list t => simp [isChangeSafeForObjectOrInterfaceField] at h
      | nonNull t => simp [isChangeSafeForObjectOrInterfaceField] at h
  | list m ih =>
      cases o with
      | named k => simp [isChangeSafeForObjectOrInterfaceField] at h
      | list t => simpa [TypeRef.coreName] using ih t h
      | nonNull t => simp [isChangeSafeForObjectOrInterfaceField] at h
  | nonNull m ih =>
      cases o with
      | named k => simpa [TypeRef.coreName] using ih _ h
      | list t => simpa [TypeRef.coreName] using ih _ h
      | nonNull t => simpa [TypeRef.coreName] using ih t h

/-- A GraphQL default value as the coerced JavaScript value graphql-js stores
in `defaultValue`: a string, number, boolean or `null` scalar, an array, or a
plain object.  `nan` is the IEEE NaN number, representable as a JS value
(although no SDL literal coerces to it). -/
inductive Value where
  | str (s : String)
  | int (n : Int)
  | bool (b : Bool)
  | null
  | nan
  | list (items : List Value)
  | obj (fields : List (String × Value))

/-- JS `v == null` (loose equality against null, true only of `null` and
`undefined`; `undefined` is handled at the `Option` level by
`isDefaultValueEqualOpt`). -/
def isNullValue : Value → Bool
  | .null => true
  | _ => false

/-- JS strict equality `===` between the two default values being compared.
Scalars compare by value; `NaN === NaN` is false; arrays and objects compare
by reference, and the two compared values always come from two independently
built schemas, so no references are ever shared and `===` on composites is
false. -/
def strictEq : Value → Value → Bool
  | .str a, .str b => a == b
  | .int a, .int b => a == b
  | .bool a, .bool b => a == b
  | .null, .null => true
  | _, _ => false

/-- JS `typeof`. -/
def typeofV : Value → String
  | .str _ => "string"
  | .int _ => "number"
  | .bool _ => "boolean"
  | .null => "object"
  | .nan => "number"
  | .list _ => "object"
  | .obj _ => "object"

/-- JS `Object.keys`: stringified indices for an array, own keys for an
object, nothing for primitives. -/
def jsKeys : Value → List String
  | .list xs => (List.range xs.length).map (fun i => ToString.toString i)
  | .obj fs => fs.map Prod.fst
  | _ => []

/-- JS property read `v[k]` for the shapes reached by `isDefaultValueEqual`
(the read is always guarded by a key-membership check, so the `Value.null`
fallback for a missing key is never the returned result). -/
def jsGet : Value → String → Value
  | .list xs, k =>
      match xs.enum.find? (fun p => ToString.toString p.fst == k) with
      | some p => p.snd
      | none => .null
  | .obj fs, k =>
      match fs.find? (fun p => p.fst == k) with
      | some p => p.snd
      | none => .null
  | _, _ => .null

theorem sizeOf_snd_lt_of_mem_enum {xs : List Value} {i : Nat} {v : Value}
    (h : (i, v) ∈ xs.enum) : sizeOf v < sizeOf xs := by
  obtain ⟨hi, hv⟩ := List.mem_enum h
  rw [hv]
  exact List.sizeOf_lt_of_mem (xs.getElem_mem hi)

/-- `isDefaultValueEqual` (source lines 85-109): deep equality used for
default values.  The first four guards are the source's early returns; the
match splits the array branch (`Array.isArray` on both) and the generic
`typeof === 'object'` branch (which compares `Object.keys` — reached for
object/object and for the array/object mixes, all of which have
`typeof === 'object'`). -/
def isDefaultValueEqual (oldValue newValue : Value) : Bool :=
  if strictEq oldValue newValue then true
  else if isNullValue oldValue || isNullValue newValue then false
  else if typeofV oldValue != typeofV newValue then false
  else
    match oldValue, newValue with
    | .list xs, .list ys =>
        xs.length == ys.length &&
        (xs.zip ys).attach.all (fun p => isDefaultValueEqual p.val.fst p.val.snd)
    | .list xs, .obj gs =>
        xs.length == gs.length &&
        xs.enum.attach.all (fun p =>
          (jsKeys (.obj gs)).contains (ToString.toString p.val.fst) &&
          isDefaultValueEqual p.val.snd (jsGet (.obj gs) (ToString.toString p.val.fst)))
    | .obj fs, nv =>
        (jsKeys (.obj fs)).length == (jsKeys nv).length &&
        fs.attach.all (fun p =>
          (jsKeys nv).contains p.val.fst &&
          isDefaultValueEqual p.val.snd (jsGet nv p.val.fst))
    | _, _ => false
termination_by sizeOf oldValue
decreasing_by
  · obtain ⟨⟨a, b⟩, hp⟩ := p
    have h2 := List.sizeOf_lt_of_mem (List.of_mem_zip hp).1
    simp only [Value.list.sizeOf_spec]
    omega
  · obtain ⟨⟨i, v⟩, hp⟩ := p
    have h2 := sizeOf_snd_lt_of_mem_enum hp
    simp only [Value.list.sizeOf_spec]
    omega
  · obtain ⟨⟨k, v⟩, hp⟩ := p
    have h1 := List.sizeOf_lt_of_mem hp
    simp only [Prod.mk.sizeOf_spec, Value.obj.sizeOf_spec] at h1 ⊢
    omega

/-- The call-site guard of source lines 442-444 applied to possibly-unset
(`undefined`) default values: `undefined === undefined` short-circuits to
true, and one-sided `undefined` is caught by the `== null` guard. -/
def isDefaultValueEqualOpt : Option Value → Option Value → Bool
  | some ov, some nv => isDefaultValueEqual ov nv
  | none, none => true
  | _, _ => false

/-- Boolean key-distinctness of a key list (a JS map/object never holds two
entries under one key). -/
def nodupKeys : List String → Bool
  | [] => true
  | k :: ks => !(ks.contains k) && nodupKeys ks

mutual
/-- A default value is parser-producible: JS objects have distinct keys, and
no SDL literal coerces to NaN. -/
def Value.wf : Value → Bool
  | .nan => false
  | .list xs => Value.wfList xs
  | .obj fs => nodupKeys (fs.map Prod.fst) && Value.wfFields fs
  | _ => true

def Value.wfList : List Value → Bool
  | [] => true
  | v :: vs => v.wf && Value.wfList vs

def Value.wfFields : List (String × Value) → Bool
  | [] => true
  | p :: ps => p.snd.wf && Value.wfFields ps
end

theorem nodupKeys_iff_nodup (l : List String) : nodupKeys l = true ↔ l.Nodup := by
  induction l with
  | nil => simp [nodupKeys]
  | cons k ks ih => simp [nodupKeys, ih, List.nodup_cons]

theorem wfList_mem {xs : List Value} (h : Value.wfList xs = true) {x : Value}
    (hx : x ∈ xs) : x.wf = true := by
  induction xs with
  | nil => cases hx
  | cons y ys ih =>
      rw [Value.wfList, Bool.and_eq_true] at h
      rcases List.mem_cons.mp hx with h1 | h1
      · subst h1; exact h.1
      · exact ih h.2 h1

theorem wfFields_mem {fs : List (String × Value)} (h : Value.wfFields fs = true)
    {k : String} {v : Value} (hm : (k, v) ∈ fs) : v.wf = true := by
  induction fs with
  | nil => cases hm
  | cons p ps ih =>
      rw [Value.wfFields, Bool.and_eq_true] at h
      rcases List.mem_cons.mp hm with h1 | h1
      · rw [← h1] at h; exact h.1
      · exact ih h.2 h1

/-- A `find?` on a key-distinct list, keyed by a projection, returns the
member itself (the JS map-lookup identity). -/
theorem find?_key_of_nodup {α : Type} (key : α → String) (l : List α) (x : α)
    (hnd : nodupKeys (l.map key) = true) (hm : x ∈ l) :
    l.find? (fun y => key y == key x) = some x := by
  induction l with
  | nil => cases hm
  | cons y ys ih =>
      rw [List.map_cons, nodupKeys, Bool.and_eq_true] at hnd
      rcases List.mem_cons.mp hm with h1 | h1
      · subst h1
        exact List.find?_cons_of_pos _ (by simp)
      · have hky : key y ≠ key x := by
          intro hkeq
          have hmem : key x ∈ ys.map key := List.mem_map_of_mem key h1
          have hc : (ys.map key).contains (key y) = true := by
            rw [hkeq]
            exact List.elem_eq_true_of_mem hmem
          rw [hc] at hnd
          simp at hnd
        rw [List.find?_cons_of_neg _ (by simp [hky])]
        exact ih hnd.2 h1

theorem zip_self_eq {α : Type} (l : List α) : l.zip l = l.map (fun x => (x, x)) := by
  induction l with
  | nil => rfl
  | cons x xs ih => simp [List.zip_cons_cons, ih]

@[simp] theorem strictEq_list_list (xs ys : List Value) :
    strictEq (.list xs) (.list ys) = false := rfl

@[simp] theorem strictEq_obj_obj (fs gs : List (String × Value)) :
    strictEq (.obj fs) (.obj gs) = false := rfl

@[simp] theorem isNullValue_list (xs : List Value) :
    isNullValue (.list xs) = false := rfl

@[simp] theorem isNullValue_obj (fs : List (String × Value)) :
    isNullValue (.obj fs) = false := rfl

theorem isDefaultValueEqual_refl (v : Value) (h : v.wf = true) :
    isDefaultValueEqual v v = true := by
  cases v with
  | str s => simp [isDefaultValueEqual, strictEq]
  | int n => simp [isDefaultValueEqual, strictEq]
  | bool b => simp [isDefaultValueEqual, strictEq]
  | null => simp [isDefaultValueEqual, strictEq]
  | nan => simp [Value.wf] at h
  | list xs =>
      rw [Value.wf] at h
      rw [isDefaultValueEqual]
      simp only [strictEq_list_list, isNullValue_list, Bool.false_eq_true, if_false,
        Bool.or_self, bne_self_eq_false, beq_self_eq_true, Bool.true_and]
      rw [zip_self_eq, List.all_eq_true]
      rintro ⟨⟨a, b⟩, hp⟩ _
      simp only [List.mem_map, Prod.mk.injEq] at hp
      obtain ⟨x, hx, rfl, rfl⟩ := hp
      exact isDefaultValueEqual_refl x (wfList_mem h hx)
  | obj fs =>
      rw [Value.wf, Bool.and_eq_true] at h
      rw [isDefaultValueEqual]
      simp only [strictEq_obj_obj, isNullValue_obj, Bool.false_eq_true, if_false,
        Bool.or_self, bne_self_eq_false, beq_self_eq_true, Bool.true_and]
      rw [List.all_eq_true]
      rintro ⟨⟨k, v⟩, hp⟩ _
      have hkmem : k ∈ jsKeys (.obj fs) :=
        List.mem_map_of_mem Prod.fst hp
      have hfind : fs.find? (fun p => p.fst == k) = some (k, v) :=
        find?_key_of_nodup Prod.fst fs (k, v) h.1 hp
      have hget : jsGet (.obj fs) k = v := by
        rw [jsGet, hfind]
      rw [Bool.and_eq_true]
      constructor
      · exact List.elem_eq_true_of_mem hkmem
      · rw [hget]
        exact isDefaultValueEqual_refl v (wfFields_mem h.2 hp)
termination_by sizeOf v
decreasing_by
  · subst_vars
    have h2 := List.sizeOf_lt_of_mem hx
    simp only [Value.list.sizeOf_spec]
    omega
  · subst_vars
    have h1 := List.sizeOf_lt_of_mem hp
    simp only [Prod.mk.sizeOf_spec, Value.obj.sizeOf_spec] at h1 ⊢
    omega

/-- Reordering the keys of a key-distinct, parser-producible object default
value does not affect deep equality. -/
theorem isDefaultValueEqual_obj_perm (fs gs : List (String × Value))
    (hperm : fs.Perm gs) (hwf : (Value.obj fs).wf = true) :
    isDefaultValueEqual (.obj fs) (.obj gs) = true := by
  rw [Value.wf, Bool.and_eq_true] at hwf
  obtain ⟨hnd, hvals⟩ := hwf
  have hndg : nodupKeys (gs.map Prod.fst) = true :=
    (nodupKeys_iff_nodup _).mpr
      (((hperm.map Prod.fst).nodup_iff).mp ((nodupKeys_iff_nodup _).mp hnd))
  rw [isDefaultValueEqual]
  simp only [strictEq_obj_obj, isNullValue_obj, Bool.false_eq_true, if_false,
    Bool.or_self, typeofV, bne_self_eq_false]
  rw [Bool.and_eq_true]
  constructor
  · simp [jsKeys, hperm.length_eq]
  · rw [List.all_eq_true]
    rintro ⟨⟨k, v⟩, hp⟩ _
    have hpg : (k, v) ∈ gs := hperm.subset hp
    have hkmem : k ∈ jsKeys (.obj gs) := List.mem_map_of_mem Prod.fst hpg
    have hfind : gs.find? (fun p => p.fst == k) = some (k, v) :=
      find?_key_of_nodup Prod.fst gs (k, v) hndg hpg
    have hget : jsGet (.obj gs) k = v := by rw [jsGet, hfind]
    rw [Bool.and_eq_true]
    exact ⟨List.elem_eq_true_of_mem hkmem,
      hget ▸ isDefaultValueEqual_refl v (wfFields_mem hvals hp)⟩

/-- Parser-producibility of a possibly-unset default value. -/
def optValueWf : Option Value → Bool
  | some v => v.wf
  | none => true

theorem isDefaultValueEqualOpt_refl (o : Option Value) (h : optValueWf o = true) :
    isDefaultValueEqualOpt o o = true := by
  cases o with
  | none => rfl
  | some v => exact isDefaultValueEqual_refl v h

/-- C3: the output-position compatibility check returns safe exactly per the
stated recursion, and a safe change preserves the innermost named type. -/
theorem outputPositionCompatibility_characterisation :
    ∀ o n : TypeRef,
      (isChangeSafeForObjectOrInterfaceField o n = true ↔ OutputPositionSafe o n) ∧
      (isChangeSafeForObjectOrInterfaceField o n = true → o.coreName = n.coreName) :=
  fun o n => ⟨outputSafe_iff_spec o n, outputSafe_coreName o n⟩

/-- Closed instance of C3 at `String` against `String!`. -/
theorem outputPositionCompatibility_characterisation_witness :
    (isChangeSafeForObjectOrInterfaceField (.named "String")
        (.nonNull (.named "String")) = true ↔
      OutputPositionSafe (.named "String") (.nonNull (.named "String"))) ∧
    (isChangeSafeForObjectOrInterfaceField (.named "String")
        (.nonNull (.named "String")) = true →
      TypeRef.coreName (.named "String") =
        TypeRef.coreName (.nonNull (.named "String"))) :=
  outputPositionCompatibility_characterisation (.named "String")
    (.nonNull (.named "String"))

/-- The parts of a graphql AST node the engine reads: `loc` (from which
`getLocation` reads `startToken.line` and `endToken.column`) and the names of
attached directives. -/
structure ASTNode where
  loc : Option (Nat × Nat)
  directives : List String
deriving DecidableEq, Repr

/-- `getLocation` (source lines 70-73): renders `line:column`, with each
component defaulting to 0 when the node or its location is missing. -/
def getLocation (astNode : Option ASTNode) : String :=
  match astNode with
  | some n =>
      match n.loc with
      | some lc => ToString.toString lc.fst ++ ":" ++ ToString.toString lc.snd
      | none => "0:0"
  | none => "0:0"

/-- `isDeprecated` (source lines 75-80): whether the node carries a directive
named `deprecated`. -/
def isDeprecated (astNode : Option ASTNode) : Bool :=
  match astNode with
  | some n => n.directives.contains "deprecated"
  | none => false

/-- `GraphQLArgument`: the attributes the engine reads. -/
structure ArgumentDef where
  name : String
  type : TypeRef
  defaultValue : Option Value
  astNode : Option ASTNode

/-- `GraphQLField`: the attributes the engine reads. -/
structure FieldDef where
  name : String
  type : TypeRef
  args : List ArgumentDef
  astNode : Option ASTNode

/-- A member of `GraphQLEnumType.getValues()`. -/
structure EnumValueDef where
  name : String
  astNode : Option ASTNode

/-- `GraphQLNamedType`: the six structural categories distinguished by the
engine's type predicates.  Union members and input-object fields are never
read by `detectBreakingChanges.ts`, so they are not represented. -/
inductive TypeDef where
  | scalar (name : String) (astNode : Option ASTNode)
  | object (name : String) (fields : List FieldDef) (astNode : Option ASTNode)
  | interface (name : String) (fields : List FieldDef) (astNode : Option ASTNode)
  | union (name : String) (astNode : Option ASTNode)
  | enum (name : String) (values : List EnumValueDef) (astNode : Option ASTNode)
  | inputObject (name : String) (astNode : Option ASTNode)

def TypeDef.name : TypeDef → String
  | .scalar n _ => n
  | .object n _ _ => n
  | .interface n _ _ => n
  | .union n _ => n
  | .enum n _ _ => n
  | .inputObject n _ => n

def TypeDef.astNode : TypeDef → Option ASTNode
  | .scalar _ a => a
  | .object _ _ a => a
  | .interface _ _ a => a
  | .union _ a => a
  | .enum _ _ a => a
  | .inputObject _ a => a

/-- `getFields()` of an Object or Interface type (empty for other variants,
on which the engine never calls it). -/
def TypeDef.getFields : TypeDef → List FieldDef
  | .object _ fields _ => fields
  | .interface _ fields _ => fields
  | _ => []

/-- The structural category (the constructor identity the source compares
with `oldType.constructor !== newType.constructor`). -/
inductive TypeKind where
  | scalar
  | object
  | interface
  | union
  | enum
  | inputObject
deriving DecidableEq, Repr

def TypeDef.kind : TypeDef → TypeKind
  | .scalar .. => .scalar
  | .object .. => .object
  | .interface .. => .interface
  | .union .. => .union
  | .enum .. => .enum
  | .inputObject .. => .inputObject

/-- `isObjectType` from the graphql package. -/
def isObjectType : TypeDef → Bool
  | .object .. => true
  | _ => false

/-- `isInterfaceType` from the graphql package. -/
def isInterfaceType : TypeDef → Bool
  | .interface .. => true
  | _ => false

/-- `isEnumType` from the graphql package. -/
def isEnumType : TypeDef → Bool
  | .enum .. => true
  | _ => false

/-- `isSpecifiedScalarType` from the graphql package: within a schema built
by `buildSchema` (which rejects redefinition of built-in scalars), a scalar
named after one of the five specified scalars is that specified scalar. -/
def isSpecifiedScalarType : TypeDef → Bool
  | .scalar n _ => ["String", "Int", "Float", "Boolean", "ID"].contains n
  | _ => false

/-- `isIntrospectionType` from the graphql package, keyed by the reserved
introspection type names (within a schema these names denote exactly the
introspection singletons). -/
def isIntrospectionType (t : TypeDef) : Bool :=
  ["__Schema", "__Type", "__TypeKind", "__Field", "__InputValue", "__EnumValue",
    "__Directive", "__DirectiveLocation"].contains t.name

/-- `GraphQLSchema` as the engine uses it: `getTypeMap()` in declaration
order; each entry's map key is its `name` (a `buildSchema` invariant). -/
structure Schema where
  types : List TypeDef

/-- `typeMap[name]`: map lookup, which on a key-distinct list is `find?` by
name. -/
def Schema.getType (s : Schema) (n : String) : Option TypeDef :=
  s.types.find? (fun t => t.name == n)

/-- The change categories the engine can actually produce (the TypeScript
union types list further members, but no pass constructs them). -/
inductive ChangeType where
  | FIELD_CHANGED_KIND
  | FIELD_REMOVED
  | TYPE_CHANGED_KIND
  | TYPE_REMOVED
  | VALUE_REMOVED_FROM_ENUM
  | ARG_REMOVED
  | ARG_CHANGED_KIND
  | ARG_BECAME_REQUIRED
  | REQUIRED_ARG_ADDED
  | ARG_DEFAULT_VALUE_CHANGE
  | OPTIONAL_ARG_ADDED
deriving DecidableEq, Repr

/-- A change record (`BreakingChange`/`DangerousChange` of the source).
`loc = none` is the TypeScript `undefined`; `wasRequiredByDirective = none`
is the field being absent.  `appliesOnlyToSchema` is never set by this file's
passes and is omitted. -/
structure Change where
  loc : Option String
  message : String
  resourceName : String
  type : ChangeType
  wasDeprecated : Bool
  wasRequiredByDirective : Option Bool
deriving DecidableEq, Repr

/-- `typeName.startsWith('__')`, written over the character list so that it
is kernel-evaluable (`String.startsWith` is implemented natively). -/
def startsWithDunder (s : String) : Bool := List.isPrefixOf ("__".data) s.data

/-- `findRemovedTypes` (source lines 115-146). -/
def findRemovedTypes (oldSchema newSchema : Schema) : List Change :=
  oldSchema.types.filterMap (fun oldType =>
    if isIntrospectionType oldType || isSpecifiedScalarType oldType
        || startsWithDunder oldType.name then
      none
    else if (newSchema.getType oldType.name).isNone then
      some { loc := none,
             message := "`" ++ oldType.name ++ "` removed from schema",
             resourceName := oldType.name,
             type := .TYPE_REMOVED,
             wasDeprecated := isDeprecated oldType.astNode,
             wasRequiredByDirective := none }
    else none)

/-- `typeKindName` (source lines 194-218); the `TypeError` default of the
source is unreachable over the closed six-variant type. -/
def typeKindName : TypeDef → String
  | .scalar .. => "a Scalar type"
  | .object .. => "an Object type"
  | .interface .. => "an Interface type"
  | .union .. => "a Union type"
  | .enum .. => "an Enum type"
  | .inputObject .. => "an Input type"

/-- `findFieldsThatChangedTypeOnObjectOrInterfaceType` (source lines
220-265). -/
def findFieldsThatChangedTypeOnObjectOrInterfaceType
    (typeName : String) (oldType newType : TypeDef) : List Change :=
  oldType.getFields.filterMap (fun oldField =>
    match newType.getFields.find? (fun f => f.name == oldField.name) with
    | none =>
        some { loc := some (getLocation newType.astNode),
               resourceName := typeName ++ "." ++ oldField.name,
               type := .FIELD_REMOVED,
               message := "`" ++ typeName ++ "." ++ oldField.name
                 ++ "` removed from schema",
               wasDeprecated := isDeprecated oldField.astNode,
               wasRequiredByDirective := none }
    | some newField =>
        if isChangeSafeForObjectOrInterfaceField oldField.type newField.type then
          none
        else
          let oldFieldTypeString :=
            match oldField.type with
            | .named n => n
            | t => TypeRef.toString t
          let newFieldTypeString :=
            match newField.type with
            | .named n => n
            | t => TypeRef.toString t
          some { loc := some (getLocation newField.astNode),
                 message := "Field `" ++ typeName ++ "." ++ oldField.name
                   ++ "` changed type from `" ++ oldFieldTypeString
                   ++ "` to `" ++ newFieldTypeString ++ "`",
                 resourceName := typeName ++ "." ++ oldField.name,
                 type := .FIELD_CHANGED_KIND,
                 wasDeprecated := isDeprecated oldField.astNode,
                 wasRequiredByDirective := none })

/-- The `TYPE_CHANGED_KIND` record of source lines 179-187. -/
def typeChangedKindChange (oldType newType : TypeDef) : Change :=
  { loc := some (getLocation newType.astNode),
    message := "`" ++ oldType.name ++ "` changed from "
      ++ typeKindName oldType ++ " to " ++ typeKindName newType,
    resourceName := oldType.name,
    type := .TYPE_CHANGED_KIND,
    wasDeprecated := isDeprecated oldType.astNode,
    wasRequiredByDirective := none }

/-- `findTypesThatChangedKind` (source lines 152-192), including the
Object/Interface special case of lines 166-177. -/
def findTypesThatChangedKind (oldSchema newSchema : Schema) : List Change :=
  oldSchema.types.flatMap (fun oldType =>
    match newSchema.getType oldType.name with
    | none => []
    | some newType =>
        if oldType.kind == newType.kind then []
        else if (isObjectType oldType && isInterfaceType newType)
            || (isInterfaceType oldType && isObjectType newType) then
          findFieldsThatChangedTypeOnObjectOrInterfaceType
            oldType.name oldType newType
        else [typeChangedKindChange oldType newType])

/-- The iteration scope shared by source lines 278-284 and 387-393: both
types are Object or Interface and their constructors coincide. -/
def sameObjectOrInterfaceScope (oldType newType : TypeDef) : Bool :=
  (isObjectType oldType || isInterfaceType oldType) &&
  (isObjectType newType || isInterfaceType newType) &&
  (oldType.kind == newType.kind)

/-- `findFieldsThatChangedTypeOnObjectOrInterfaceTypes` (source lines
267-295). -/
def findFieldsThatChangedTypeOnObjectOrInterfaceTypes
    (oldSchema newSchema : Schema) : List Change :=
  oldSchema.types.flatMap (fun oldType =>
    match newSchema.getType oldType.name with
    | none => []
    | some newType =>
        if sameObjectOrInterfaceScope oldType newType then
          findFieldsThatChangedTypeOnObjectOrInterfaceType
            oldType.name oldType newType
        else [])

/-- `isRequiredArgument` from the graphql package: non-null type and no
default value. -/
def isRequiredArgument (arg : ArgumentDef) : Bool :=
  arg.type.isNonNullType && arg.defaultValue.isNone

/-- Processing of one old argument in `findArgChanges` (source lines
403-441), breaking half: `ARG_REMOVED` when the argument is gone, else
`ARG_BECAME_REQUIRED`/`ARG_CHANGED_KIND` when the type change is unsafe. -/
def oldArgBreakingChange (typeName fieldName : String)
    (newFieldAst : Option ASTNode) (newArgs : List ArgumentDef)
    (oldArg : ArgumentDef) : Option Change :=
  match newArgs.find? (fun arg => arg.name == oldArg.name) with
  | none =>
      some { loc := some (getLocation newFieldAst),
             message := "`" ++ typeName ++ "." ++ fieldName ++ "` arg `"
               ++ oldArg.name ++ "` removed from schema",
             resourceName := fieldName ++ "." ++ oldArg.name,
             type := .ARG_REMOVED,
             wasDeprecated := isDeprecated oldArg.astNode,
             wasRequiredByDirective := none }
  | some newArg =>
      if isChangeSafeForInputObjectFieldOrFieldArg oldArg.type newArg.type then
        none
      else
        let becameRequired :=
          oldArg.name == newArg.name && newArg.type.isNonNullType
            && !oldArg.type.isNonNullType
        let wasRequiredByDirective :=
          match oldArg.astNode with
          | some n => some (n.directives.contains "required")
          | none => none
        some { loc := some (getLocation newArg.astNode),
               message := "`" ++ typeName ++ "." ++ fieldName ++ "` arg `"
                 ++ oldArg.name ++ "` changed type from `"
                 ++ oldArg.type.toString ++ "` to `"
                 ++ newArg.type.toString ++ "`",
               resourceName := fieldName ++ "." ++ oldArg.name,
               type := if becameRequired then .ARG_BECAME_REQUIRED
                 else .ARG_CHANGED_KIND,
               wasDeprecated := isDeprecated oldArg.astNode,
               wasRequiredByDirective := wasRequiredByDirective }

/-- Processing of one old argument in `findArgChanges` (source lines
442-453), dangerous half: `ARG_DEFAULT_VALUE_CHANGE` when the surviving,
type-compatible argument had an explicit default that is no longer
deep-equal. -/
def oldArgDangerousChange (typeName fieldName : String)
    (oldTypeAst : Option ASTNode) (newArgs : List ArgumentDef)
    (oldArg : ArgumentDef) : Option Change :=
  match newArgs.find? (fun arg => arg.name == oldArg.name) with
  | none => none
  | some newArg =>
      if isChangeSafeForInputObjectFieldOrFieldArg oldArg.type newArg.type then
        match oldArg.defaultValue with
        | none => none
        | some oldDefault =>
            if (match newArg.defaultValue with
                | some newDefault => isDefaultValueEqual oldDefault newDefault
                | none => false) then
              none
            else
              some { loc := some (getLocation newArg.astNode),
                     resourceName := fieldName ++ "." ++ oldArg.name,
                     type := .ARG_DEFAULT_VALUE_CHANGE,
                     message := "`" ++ typeName ++ "." ++ fieldName ++ "` arg `"
                       ++ oldArg.name ++ "` has changed defaultValue",
                     wasDeprecated := isDeprecated oldTypeAst,
                     wasRequiredByDirective := none }
      else none

/-- Processing of one new argument in `findArgChanges` (source lines
457-481), breaking half: `REQUIRED_ARG_ADDED` for an added truly-required
argument. -/
def newArgAddedBreakingChange (typeName fieldName : String)
    (oldField : FieldDef) (newArg : ArgumentDef) : Option Change :=
  match oldField.args.find? (fun arg => arg.name == newArg.name) with
  | some _ => none
  | none =>
      if isRequiredArgument newArg then
        some { loc := some (getLocation newArg.astNode),
               resourceName := typeName ++ "." ++ fieldName,
               type := .REQUIRED_ARG_ADDED,
               message := "A required arg `" ++ newArg.name ++ "` on `"
                 ++ typeName ++ "." ++ fieldName ++ "` was added",
               wasDeprecated := isDeprecated oldField.astNode,
               wasRequiredByDirective := none }
      else none

/-- Processing of one new argument in `findArgChanges` (source lines
457-481), dangerous half: `OPTIONAL_ARG_ADDED` for an added optional
argument. -/
def newArgAddedDangerousChange (typeName fieldName : String)
    (oldField : FieldDef) (newArg : ArgumentDef) : Option Change :=
  match oldField.args.find? (fun arg => arg.name == newArg.name) with
  | some _ => none
  | none =>
      if isRequiredArgument newArg then none
      else
        some { loc := some (getLocation newArg.astNode),
               resourceName := typeName ++ "." ++ fieldName,
               type := .OPTIONAL_ARG_ADDED,
               message := "An optional arg `" ++ newArg.name ++ "` on `"
                 ++ typeName ++ "." ++ fieldName ++ "` was added",
               wasDeprecated := isDeprecated oldField.astNode,
               wasRequiredByDirective := none }

/-- The per-field body of `findArgChanges` (source lines 398-482), breaking
half: the loop over the old field's arguments followed by the loop over the
new field's arguments.  Each argument produces at most one change, so
splitting the source's single iteration into a breaking and a dangerous
traversal preserves both output orders. -/
def argChangesBreakingForField (typeName : String) (oldField newField : FieldDef) :
    List Change :=
  oldField.args.filterMap
    (oldArgBreakingChange typeName oldField.name newField.astNode newField.args)
  ++ newField.args.filterMap
    (newArgAddedBreakingChange typeName oldField.name oldField)

/-- The per-field body of `findArgChanges`, dangerous half. -/
def argChangesDangerousForField (typeName : String) (oldTypeAst : Option ASTNode)
    (oldField newField : FieldDef) : List Change :=
  oldField.args.filterMap
    (oldArgDangerousChange typeName oldField.name oldTypeAst newField.args)
  ++ newField.args.filterMap
    (newArgAddedDangerousChange typeName oldField.name oldField)

/-- The per-type body of `findArgChanges`, breaking half. -/
def argChangesBreakingForType (oldType newType : TypeDef) : List Change :=
  if sameObjectOrInterfaceScope oldType newType then
    oldType.getFields.flatMap (fun oldField =>
      match newType.getFields.find? (fun f => f.name == oldField.name) with
      | none => []
      | some newField =>
          argChangesBreakingForField oldType.name oldField newField)
  else []

/-- The per-type body of `findArgChanges`, dangerous half. -/
def argChangesDangerousForType (oldType newType : TypeDef) : List Change :=
  if sameObjectOrInterfaceScope oldType newType then
    oldType.getFields.flatMap (fun oldField =>
      match newType.getFields.find? (fun f => f.name == oldField.name) with
      | none => []
      | some newField =>
          argChangesDangerousForField oldType.name oldType.astNode oldField newField)
  else []

/-- `findArgChanges` (source lines 371-489), breaking list.  The `typeName`
map key equals `oldType.name` (the `buildSchema` invariant), so the source's
uses of either are both rendered from `oldType.name`. -/
def findArgChangesBreaking (oldSchema newSchema : Schema) : List Change :=
  oldSchema.types.flatMap (fun oldType =>
    match newSchema.getType oldType.name with
    | none => []
    | some newType => argChangesBreakingForType oldType newType)

/-- `findArgChanges` (source lines 371-489), dangerous list. -/
def findArgChangesDangerous (oldSchema newSchema : Schema) : List Change :=
  oldSchema.types.flatMap (fun oldType =>
    match newSchema.getType oldType.name with
    | none => []
    | some newType => argChangesDangerousForType oldType newType)

/-- `findValuesRemovedFromEnums` (source lines 495-526). -/
def findValuesRemovedFromEnums (oldSchema newSchema : Schema) : List Change :=
  oldSchema.types.flatMap (fun oldType =>
    match newSchema.getType oldType.name with
    | none => []
    | some newType =>
        match oldType, newType with
        | .enum oldName oldValues _, .enum _ newValues newAst =>
            oldValues.filterMap (fun value =>
              if (newValues.map EnumValueDef.name).contains value.name then none
              else
                some { loc := some (getLocation newAst),
                       resourceName := oldName ++ "." ++ value.name,
                       type := .VALUE_REMOVED_FROM_ENUM,
                       message := "Value `" ++ value.name
                         ++ "` removed from enum `" ++ oldName ++ "`",
                       wasDeprecated := isDeprecated value.astNode,
                       wasRequiredByDirective := none })
        | _, _ => [])

/-- The pass composition of `detectBreakingChanges` (source lines 538-553),
after both schemas have been built. -/
def detectChangesOnSchemas (fromSchema toSchema : Schema) :
    List Change × List Change :=
  (findRemovedTypes fromSchema toSchema
     ++ findTypesThatChangedKind fromSchema toSchema
     ++ findFieldsThatChangedTypeOnObjectOrInterfaceTypes fromSchema toSchema
     ++ findArgChangesBreaking fromSchema toSchema
     ++ findValuesRemovedFromEnums fromSchema toSchema,
   findArgChangesDangerous fromSchema toSchema)

/-- `detectBreakingChanges` (source lines 531-554), parametrised by the
external parser (`buildSchema` of the graphql package, an out-of-scope
collaborator); a JS exception thrown by either `buildSchema` call aborts the
function and propagates, which the `Except` threading models. -/
def detectBreakingChanges (buildSchema : String → Except String Schema)
    (a b : String) : Except String (List Change × List Change) :=
  match buildSchema a with
  | .error e => .error e
  | .ok fromSchema =>
      match buildSchema b with
      | .error e => .error e
      | .ok toSchema => .ok (detectChangesOnSchemas fromSchema toSchema)

/-- Parser-producibility of a field: a `buildSchema` argument map has
distinct argument names, and default values are parser-producible. -/
def FieldDef.wf (f : FieldDef) : Bool :=
  nodupKeys (f.args.map ArgumentDef.name) &&
  f.args.all (fun a => optValueWf a.defaultValue)

/-- Parser-producibility of a type: a `buildSchema` field map has distinct
field names. -/
def TypeDef.wf (t : TypeDef) : Bool :=
  nodupKeys (t.getFields.map FieldDef.name) && t.getFields.all FieldDef.wf

/-- Parser-producibility of a schema: a `buildSchema` type map has distinct
type names. -/
def Schema.wf (s : Schema) : Bool :=
  nodupKeys (s.types.map TypeDef.name) && s.types.all TypeDef.wf

theorem Schema.wf_nodup {s : Schema} (h : s.wf = true) :
    nodupKeys (s.types.map TypeDef.name) = true := by
  rw [Schema.wf, Bool.and_eq_true] at h
  exact h.1

theorem Schema.wf_type {s : Schema} (h : s.wf = true) {t : TypeDef}
    (ht : t ∈ s.types) : t.wf = true := by
  rw [Schema.wf, Bool.and_eq_true, List.all_eq_true] at h
  exact h.2 t ht

theorem TypeDef.wf_fields_nodup {t : TypeDef} (h : t.wf = true) :
    nodupKeys (t.getFields.map FieldDef.name) = true := by
  rw [TypeDef.wf, Bool.and_eq_true] at h
  exact h.1

theorem TypeDef.wf_field {t : TypeDef} (h : t.wf = true) {f : FieldDef}
    (hf : f ∈ t.getFields) : f.wf = true := by
  rw [TypeDef.wf, Bool.and_eq_true, List.all_eq_true] at h
  exact h.2 f hf

theorem FieldDef.wf_args_nodup {f : FieldDef} (h : f.wf = true) :
    nodupKeys (f.args.map ArgumentDef.name) = true := by
  rw [FieldDef.wf, Bool.and_eq_true] at h
  exact h.1

theorem FieldDef.wf_arg_default {f : FieldDef} (h : f.wf = true)
    {a : ArgumentDef} (ha : a ∈ f.args) : optValueWf a.defaultValue = true := by
  rw [FieldDef.wf, Bool.and_eq_true, List.all_eq_true] at h
  exact h.2 a ha

theorem getType_self_isSome (s : Schema) {t : TypeDef} (ht : t ∈ s.types) :
    (s.getType t.name).isSome = true :=
  List.find?_isSome.mpr ⟨t, ht, by simp⟩

theorem getType_self (s : Schema)
    (hnd : nodupKeys (s.types.map TypeDef.name) = true)
    {t : TypeDef} (ht : t ∈ s.types) : s.getType t.name = some t :=
  find?_key_of_nodup TypeDef.name s.types t hnd ht

theorem findRemovedTypes_self (s : Schema) : findRemovedTypes s s = [] := by
  rw [findRemovedTypes, List.filterMap_eq_nil_iff]
  intro t ht
  by_cases hskip : (isIntrospectionType t || isSpecifiedScalarType t
      || startsWithDunder t.name) = true
  · simp [hskip]
  · obtain ⟨u, hu⟩ := Option.isSome_iff_exists.mp (getType_self_isSome s ht)
    simp [hskip, hu]

theorem findFields_onType_self (typeName : String) (t : TypeDef)
    (hwt : t.wf = true) :
    findFieldsThatChangedTypeOnObjectOrInterfaceType typeName t t = [] := by
  rw [findFieldsThatChangedTypeOnObjectOrInterfaceType, List.filterMap_eq_nil_iff]
  intro f hf
  rw [find?_key_of_nodup FieldDef.name t.getFields f
    (TypeDef.wf_fields_nodup hwt) hf]
  simp [outputSafe_refl]

theorem findTypesThatChangedKind_self (s : Schema)
    (hnd : nodupKeys (s.types.map TypeDef.name) = true) :
    findTypesThatChangedKind s s = [] := by
  rw [findTypesThatChangedKind, List.flatMap_eq_nil_iff]
  intro t ht
  rw [getType_self s hnd ht]
  simp

theorem findFieldsThatChangedTypeOnObjectOrInterfaceTypes_self (s : Schema)
    (hwf : s.wf = true) :
    findFieldsThatChangedTypeOnObjectOrInterfaceTypes s s = [] := by
  rw [findFieldsThatChangedTypeOnObjectOrInterfaceTypes, List.flatMap_eq_nil_iff]
  intro t ht
  rw [getType_self s (Schema.wf_nodup hwf) ht]
  by_cases hscope : sameObjectOrInterfaceScope t t = true
  · simp [hscope, findFields_onType_self t.name t (Schema.wf_type hwf ht)]
  · simp [hscope]

theorem oldArgBreakingChange_self (tn fn : String) (ast : Option ASTNode)
    (args : List ArgumentDef)
    (hnd : nodupKeys (args.map ArgumentDef.name) = true)
    {a : ArgumentDef} (ha : a ∈ args) :
    oldArgBreakingChange tn fn ast args a = none := by
  rw [oldArgBreakingChange, find?_key_of_nodup ArgumentDef.name args a hnd ha]
  simp [inputSafe_refl]

theorem oldArgDangerousChange_self (tn fn : String) (ast : Option ASTNode)
    (args : List ArgumentDef)
    (hnd : nodupKeys (args.map ArgumentDef.name) = true)
    {a : ArgumentDef} (ha : a ∈ args)
    (hwa : optValueWf a.defaultValue = true) :
    oldArgDangerousChange tn fn ast args a = none := by
  rw [oldArgDangerousChange, find?_key_of_nodup ArgumentDef.name args a hnd ha]
  simp only [inputSafe_refl, if_true]
  cases hd : a.defaultValue with
  | none => rfl
  | some v =>
      rw [hd] at hwa
      simp [isDefaultValueEqual_refl v hwa]

theorem newArgAddedBreakingChange_self (tn fn : String) (f : FieldDef)
    {a : ArgumentDef} (ha : a ∈ f.args) :
    newArgAddedBreakingChange tn fn f a = none := by
  rw [newArgAddedBreakingChange]
  have hsome : (f.args.find? (fun arg => arg.name == a.name)).isSome = true :=
    List.find?_isSome.mpr ⟨a, ha, by simp⟩
  obtain ⟨u, hu⟩ := Option.isSome_iff_exists.mp hsome
  rw [hu]

theorem newArgAddedDangerousChange_self (tn fn : String) (f : FieldDef)
    {a : ArgumentDef} (ha : a ∈ f.args) :
    newArgAddedDangerousChange tn fn f a = none := by
  rw [newArgAddedDangerousChange]
  have hsome : (f.args.find? (fun arg => arg.name == a.name)).isSome = true :=
    List.find?_isSome.mpr ⟨a, ha, by simp⟩
  obtain ⟨u, hu⟩ := Option.isSome_iff_exists.mp hsome
  rw [hu]

theorem argChangesBreakingForField_self (tn : String) (f : FieldDef)
    (hfw : f.wf = true) : argChangesBreakingForField tn f f = [] := by
  rw [argChangesBreakingForField, List.append_eq_nil]
  constructor
  · rw [List.filterMap_eq_nil_iff]
    intro a ha
    exact oldArgBreakingChange_self tn f.name f.astNode f.args
      (FieldDef.wf_args_nodup hfw) ha
  · rw [List.filterMap_eq_nil_iff]
    intro a ha
    exact newArgAddedBreakingChange_self tn f.name f ha

theorem argChangesBreakingForType_self (t : TypeDef) (hwt : t.wf = true) :
    argChangesBreakingForType t t = [] := by
  rw [argChangesBreakingForType]
  by_cases hscope : sameObjectOrInterfaceScope t t = true
  · simp only [hscope, if_true]
    rw [List.flatMap_eq_nil_iff]
    intro f hf
    have hfind := find?_key_of_nodup FieldDef.name t.getFields f
      (TypeDef.wf_fields_nodup hwt) hf
    simp only [hfind]
    exact argChangesBreakingForField_self t.name f (TypeDef.wf_field hwt hf)
  · simp [hscope]

theorem findArgChangesBreaking_self (s : Schema) (hwf : s.wf = true) :
    findArgChangesBreaking s s = [] := by
  rw [findArgChangesBreaking, List.flatMap_eq_nil_iff]
  intro t ht
  rw [getType_self s (Schema.wf_nodup hwf) ht]
  exact argChangesBreakingForType_self t (Schema.wf_type hwf ht)

theorem argChangesDangerousForField_self (tn : String) (tast : Option ASTNode)
    (f : FieldDef) (hfw : f.wf = true) :
    argChangesDangerousForField tn tast f f = [] := by
  rw [argChangesDangerousForField, List.append_eq_nil]
  constructor
  · rw [List.filterMap_eq_nil_iff]
    intro a ha
    exact oldArgDangerousChange_self tn f.name tast f.args
      (FieldDef.wf_args_nodup hfw) ha (FieldDef.wf_arg_default hfw ha)
  · rw [List.filterMap_eq_nil_iff]
    intro a ha
    exact newArgAddedDangerousChange_self tn f.name f ha

theorem argChangesDangerousForType_self (t : TypeDef) (hwt : t.wf = true) :
    argChangesDangerousForType t t = [] := by
  rw [argChangesDangerousForType]
  by_cases hscope : sameObjectOrInterfaceScope t t = true
  · simp only [hscope, if_true]
    rw [List.flatMap_eq_nil_iff]
    intro f hf
    have hfind := find?_key_of_nodup FieldDef.name t.getFields f
      (TypeDef.wf_fields_nodup hwt) hf
    simp only [hfind]
    exact argChangesDangerousForField_self t.name t.astNode f
      (TypeDef.wf_field hwt hf)
  · simp [hscope]

theorem findArgChangesDangerous_self (s : Schema) (hwf : s.wf = true) :
    findArgChangesDangerous s s = [] := by
  rw [findArgChangesDangerous, List.flatMap_eq_nil_iff]
  intro t ht
  rw [getType_self s (Schema.wf_nodup hwf) ht]
  exact argChangesDangerousForType_self t (Schema.wf_type hwf ht)

theorem findValuesRemovedFromEnums_self (s : Schema)
    (hnd : nodupKeys (s.types.map TypeDef.name) = true) :
    findValuesRemovedFromEnums s s = [] := by
  rw [findValuesRemovedFromEnums, List.flatMap_eq_nil_iff]
  intro t ht
  rw [getType_self s hnd ht]
  cases t with
  | scalar n a => rfl
  | object n f a => rfl
  | interface n f a => rfl
  | union n a => rfl
  | inputObject n a => rfl
  | enum n values a =>
      simp only []
      rw [List.filterMap_eq_nil_iff]
      intro v hv
      have hmem : v.name ∈ values.map EnumValueDef.name :=
        List.mem_map_of_mem EnumValueDef.name hv
      have hc : (values.map EnumValueDef.name).contains v.name = true :=
        List.elem_eq_true_of_mem hmem
      rw [hc, if_pos rfl]

theorem detectChangesOnSchemas_self (s : Schema) (hwf : s.wf = true) :
    detectChangesOnSchemas s s = ([], []) := by
  rw [detectChangesOnSchemas, findRemovedTypes_self,
    findTypesThatChangedKind_self s (Schema.wf_nodup hwf),
    findFieldsThatChangedTypeOnObjectOrInterfaceTypes_self s hwf,
    findArgChangesBreaking_self s hwf, findValuesRemovedFromEnums_self s
    (Schema.wf_nodup hwf), findArgChangesDangerous_self s hwf]
  rfl

/-- C1: for every schema text that parses successfully (to the
parser-producible model `M`), comparing the text against itself yields no
breaking and no dangerous changes. -/
theorem detectBreakingChanges_self_empty
    (buildSchema : String → Except String Schema) (s : String) (M : Schema)
    (hparse : buildSchema s = .ok M) (hwf : M.wf = true) :
    detectBreakingChanges buildSchema s s = .ok ([], []) := by
  rw [detectBreakingChanges, hparse]
  exact congrArg Except.ok (detectChangesOnSchemas_self M hwf)

/-- A small concrete parser-producible schema used by closed instances. -/
def exampleSchemaSelf : Schema :=
  { types :=
      [ TypeDef.object "Query"
          [ { name := "user",
              type := TypeRef.named "User",
              args :=
                [ { name := "id",
                    type := TypeRef.named "String",
                    defaultValue := some (Value.str "default"),
                    astNode := some { loc := some (3, 27), directives := [] } } ],
              astNode := some { loc := some (3, 12), directives := [] } } ]
          (some { loc := some (2, 7), directives := [] }),
        TypeDef.object "User"
          [ { name := "id",
              type := TypeRef.named "String",
              args := [],
              astNode := some { loc := some (6, 9), directives := [] } } ]
          (some { loc := some (5, 7), directives := [] }),
        TypeDef.scalar "String" none,
        TypeDef.enum "Status"
          [ { name := "ACTIVE", astNode := none } ]
          (some { loc := some (9, 7), directives := [] }) ] }

/-- Closed instance of C1 on `exampleSchemaSelf`. -/
theorem detectBreakingChanges_self_empty_witness :
    Schema.wf exampleSchemaSelf = true ∧
    detectBreakingChanges (fun _ => Except.ok exampleSchemaSelf)
      "schema" "schema" = Except.ok ([], []) :=
  ⟨by decide,
   detectBreakingChanges_self_empty (fun _ => Except.ok exampleSchemaSelf)
     "schema" exampleSchemaSelf rfl (by decide)⟩

/-- Replace the argument list of the field named `fn` (identity on other
fields). -/
def updateArgsInField (fn : String) (g : List ArgumentDef → List ArgumentDef)
    (f : FieldDef) : FieldDef :=
  if f.name == fn then { f with args := g f.args } else f

/-- Replace the argument list of field `fn` of the Object or Interface type
named `tn` (identity on other types and on other variants). -/
def updateArgsInType (tn fn : String) (g : List ArgumentDef → List ArgumentDef) :
    TypeDef → TypeDef
  | .object n fields ast =>
      if n == tn then .object n (fields.map (updateArgsInField fn g)) ast
      else .object n fields ast
  | .interface n fields ast =>
      if n == tn then .interface n (fields.map (updateArgsInField fn g)) ast
      else .interface n fields ast
  | .scalar n ast => .scalar n ast
  | .union n ast => .union n ast
  | .enum n values ast => .enum n values ast
  | .inputObject n ast => .inputObject n ast

/-- A schema differing from `s` only in the argument list of field `fn` of
type `tn`. -/
def updateArgsInSchema (tn fn : String) (g : List ArgumentDef → List ArgumentDef)
    (s : Schema) : Schema :=
  { types := s.types.map (updateArgsInType tn fn g) }

theorem updateArgsInField_name (fn : String) (g : List ArgumentDef → List ArgumentDef)
    (f : FieldDef) : (updateArgsInField fn g f).name = f.name := by
  rw [updateArgsInField]
  split <;> rfl

theorem updateArgsInField_type (fn : String) (g : List ArgumentDef → List ArgumentDef)
    (f : FieldDef) : (updateArgsInField fn g f).type = f.type := by
  rw [updateArgsInField]
  split <;> rfl

theorem updateArgsInField_astNode (fn : String)
    (g : List ArgumentDef → List ArgumentDef) (f : FieldDef) :
    (updateArgsInField fn g f).astNode = f.astNode := by
  rw [updateArgsInField]
  split <;> rfl

theorem updateArgsInField_self (fn : String) (g : List ArgumentDef → List ArgumentDef)
    (f : FieldDef) (h : f.name = fn) :
    updateArgsInField fn g f = { f with args := g f.args } := by
  rw [updateArgsInField, if_pos (by simp [h])]

theorem updateArgsInField_other (fn : String) (g : List ArgumentDef → List ArgumentDef)
    (f : FieldDef) (h : f.name ≠ fn) : updateArgsInField fn g f = f := by
  rw [updateArgsInField, if_neg (by simp [h])]

theorem updateArgsInType_name (tn fn : String)
    (g : List ArgumentDef → List ArgumentDef) (t : TypeDef) :
    (updateArgsInType tn fn g t).name = t.name := by
  cases t <;> rw [updateArgsInType] <;> first | rfl | (split <;> rfl)

theorem updateArgsInType_kind (tn fn : String)
    (g : List ArgumentDef → List ArgumentDef) (t : TypeDef) :
    (updateArgsInType tn fn g t).kind = t.kind := by
  cases t <;> rw [updateArgsInType] <;> first | rfl | (split <;> rfl)

theorem updateArgsInType_astNode (tn fn : String)
    (g : List ArgumentDef → List ArgumentDef) (t : TypeDef) :
    (updateArgsInType tn fn g t).astNode = t.astNode := by
  cases t <;> rw [updateArgsInType] <;> first | rfl | (split <;> rfl)

theorem updateArgsInType_other (tn fn : String)
    (g : List ArgumentDef → List ArgumentDef) (t : TypeDef) (h : t.name ≠ tn) :
    updateArgsInType tn fn g t = t := by
  cases t <;> rw [updateArgsInType] <;>
    first
    | rfl
    | (rw [if_neg (by simpa [TypeDef.name] using h)])

theorem updateArgsInType_getFields (tn fn : String)
    (g : List ArgumentDef → List ArgumentDef) (t : TypeDef) :
    (updateArgsInType tn fn g t).getFields
      = if t.name == tn then t.getFields.map (updateArgsInField fn g)
        else t.getFields := by
  cases t with
  | object n fields ast =>
      rw [updateArgsInType]
      by_cases h : (n == tn) = true
      · rw [if_pos h]
        simp [TypeDef.getFields, TypeDef.name, h]
      · rw [if_neg h]
        simp [TypeDef.getFields, TypeDef.name, h]
  | interface n fields ast =>
      rw [updateArgsInType]
      by_cases h : (n == tn) = true
      · rw [if_pos h]
        simp [TypeDef.getFields, TypeDef.name, h]
      · rw [if_neg h]
        simp [TypeDef.getFields, TypeDef.name, h]
  | scalar n ast => split <;> rfl
  | union n ast => split <;> rfl
  | enum n v ast => split <;> rfl
  | inputObject n ast => split <;> rfl

theorem getType_update (tn fn : String) (g : List ArgumentDef → List ArgumentDef)
    (s : Schema) (n : String) :
    (updateArgsInSchema tn fn g s).getType n
      = (s.getType n).map (updateArgsInType tn fn g) := by
  rw [Schema.getType, Schema.getType, updateArgsInSchema, List.find?_map]
  have hpred : ((fun t : TypeDef => t.name == n) ∘ updateArgsInType tn fn g)
      = (fun t : TypeDef => t.name == n) := by
    funext t
    simp [Function.comp, updateArgsInType_name]
  rw [hpred]

theorem isObjectType_eq_kind (t : TypeDef) :
    isObjectType t = (t.kind == TypeKind.object) := by
  cases t <;> rfl

theorem isInterfaceType_eq_kind (t : TypeDef) :
    isInterfaceType t = (t.kind == TypeKind.interface) := by
  cases t <;> rfl

theorem sameObjectOrInterfaceScope_update (tn fn : String)
    (g : List ArgumentDef → List ArgumentDef) (t : TypeDef) :
    sameObjectOrInterfaceScope t (updateArgsInType tn fn g t)
      = (isObjectType t || isInterfaceType t) := by
  rw [sameObjectOrInterfaceScope, isObjectType_eq_kind, isInterfaceType_eq_kind,
    isObjectType_eq_kind, isInterfaceType_eq_kind, updateArgsInType_kind]
  cases h : t.kind <;> simp

theorem isObjectOrInterface_of_mem_fields {t : TypeDef} {f : FieldDef}
    (hf : f ∈ t.getFields) : (isObjectType t || isInterfaceType t) = true := by
  cases t with
  | object n fs a => rfl
  | interface n fs a => rfl
  | scalar n a => exact absurd hf (List.not_mem_nil f)
  | union n a => exact absurd hf (List.not_mem_nil f)
  | enum n v a => exact absurd hf (List.not_mem_nil f)
  | inputObject n a => exact absurd hf (List.not_mem_nil f)

theorem find?_fields_update (fn : String) (g : List ArgumentDef → List ArgumentDef)
    (fields : List FieldDef) (n : String) :
    (fields.map (updateArgsInField fn g)).find? (fun x => x.name == n)
      = (fields.find? (fun x => x.name == n)).map (updateArgsInField fn g) := by
  rw [List.find?_map]
  have hpred : ((fun x : FieldDef => x.name == n) ∘ updateArgsInField fn g)
      = (fun x : FieldDef => x.name == n) := by
    funext x
    simp [Function.comp, updateArgsInField_name]
  rw [hpred]

theorem findRemovedTypes_update (tn fn : String)
    (g : List ArgumentDef → List ArgumentDef) (s : Schema) :
    findRemovedTypes s (updateArgsInSchema tn fn g s) = [] := by
  rw [findRemovedTypes, List.filterMap_eq_nil_iff]
  intro t ht
  by_cases hskip : (isIntrospectionType t || isSpecifiedScalarType t
      || startsWithDunder t.name) = true
  · simp [hskip]
  · rw [getType_update]
    obtain ⟨u, hu⟩ := Option.isSome_iff_exists.mp (getType_self_isSome s ht)
    simp [hskip, hu]

theorem findTypesThatChangedKind_update (tn fn : String)
    (g : List ArgumentDef → List ArgumentDef) (s : Schema)
    (hnd : nodupKeys (s.types.map TypeDef.name) = true) :
    findTypesThatChangedKind s (updateArgsInSchema tn fn g s) = [] := by
  rw [findTypesThatChangedKind, List.flatMap_eq_nil_iff]
  intro t ht
  rw [getType_update, getType_self s hnd ht]
  simp [updateArgsInType_kind]

theorem findFields_onType_update (tn fn : String)
    (g : List ArgumentDef → List ArgumentDef) (t : TypeDef) (hwt : t.wf = true) :
    findFieldsThatChangedTypeOnObjectOrInterfaceType t.name t
      (updateArgsInType tn fn g t) = [] := by
  rw [findFieldsThatChangedTypeOnObjectOrInterfaceType, List.filterMap_eq_nil_iff]
  intro f hf
  rw [updateArgsInType_getFields]
  by_cases htn : (t.name == tn) = true
  · rw [if_pos htn, find?_fields_update,
      find?_key_of_nodup FieldDef.name t.getFields f
        (TypeDef.wf_fields_nodup hwt) hf]
    simp [updateArgsInField_type, outputSafe_refl]
  · rw [if_neg htn,
      find?_key_of_nodup FieldDef.name t.getFields f
        (TypeDef.wf_fields_nodup hwt) hf]
    simp [outputSafe_refl]

theorem findFieldsThatChangedTypeOnObjectOrInterfaceTypes_update (tn fn : String)
    (g : List ArgumentDef → List ArgumentDef) (s : Schema) (hwf : s.wf = true) :
    findFieldsThatChangedTypeOnObjectOrInterfaceTypes s
      (updateArgsInSchema tn fn g s) = [] := by
  rw [findFieldsThatChangedTypeOnObjectOrInterfaceTypes, List.flatMap_eq_nil_iff]
  intro t ht
  rw [getType_update, getType_self s (Schema.wf_nodup hwf) ht]
  simp only [Option.map_some']
  rw [sameObjectOrInterfaceScope_update]
  by_cases hoi : (isObjectType t || isInterfaceType t) = true
  · simp [hoi, findFields_onType_update tn fn g t (Schema.wf_type hwf ht)]
  · simp [hoi]

theorem findValuesRemovedFromEnums_update (tn fn : String)
    (g : List ArgumentDef → List ArgumentDef) (s : Schema)
    (hnd : nodupKeys (s.types.map TypeDef.name) = true) :
    findValuesRemovedFromEnums s (updateArgsInSchema tn fn g s) = [] := by
  rw [findValuesRemovedFromEnums, List.flatMap_eq_nil_iff]
  intro t ht
  rw [getType_update, getType_self s hnd ht]
  cases t with
  | enum n values a =>
      simp only [Option.map_some', updateArgsInType]
      rw [List.filterMap_eq_nil_iff]
      intro v hv
      have hmem : v.name ∈ values.map EnumValueDef.name :=
        List.mem_map_of_mem EnumValueDef.name hv
      have hc : (values.map EnumValueDef.name).contains v.name = true :=
        List.elem_eq_true_of_mem hmem
      rw [hc, if_pos rfl]
  | scalar n a => rfl
  | union n a => rfl
  | inputObject n a => rfl
  | object n fields a =>
      by_cases h : (n == tn) = true <;> simp [updateArgsInType, h]
  | interface n fields a =>
      by_cases h : (n == tn) = true <;> simp [updateArgsInType, h]

theorem flatMap_eq_single_of_nodupKey {α β : Type} (key : α → String) (l : List α)
    (F : α → List β) (x : α) (hnd : nodupKeys (l.map key) = true) (hx : x ∈ l)
    (hother : ∀ y ∈ l, key y ≠ key x → F y = []) :
    l.flatMap F = F x := by
  induction l with
  | nil => cases hx
  | cons z zs ih =>
      rw [List.map_cons, nodupKeys, Bool.and_eq_true] at hnd
      rcases List.mem_cons.mp hx with h1 | h1
      · subst h1
        have hzs : zs.flatMap F = [] := by
          rw [List.flatMap_eq_nil_iff]
          intro y hy
          apply hother y (List.mem_cons_of_mem _ hy)
          intro hk
          have hmem : key x ∈ zs.map key := hk ▸ List.mem_map_of_mem key hy
          have hc : (zs.map key).contains (key x) = true :=
            List.elem_eq_true_of_mem hmem
          rw [hc] at hnd
          simp at hnd
        rw [List.flatMap_cons, hzs, List.append_nil]
      · have hz : F z = [] := by
          apply hother z (List.mem_cons_self z zs)
          intro hk
          have hmem : key z ∈ zs.map key := by
            rw [hk]
            exact List.mem_map_of_mem key h1
          have hc : (zs.map key).contains (key z) = true :=
            List.elem_eq_true_of_mem hmem
          rw [hc] at hnd
          simp at hnd
        rw [List.flatMap_cons, hz, List.nil_append]
        exact ih hnd.2 h1 (fun y hy hk => hother y (List.mem_cons_of_mem _ hy) hk)

theorem filterMap_eq_single_of_nodupKey {α β : Type} (key : α → String)
    (l : List α) (F : α → Option β) (x : α) (c : β)
    (hnd : nodupKeys (l.map key) = true) (hx : x ∈ l)
    (hother : ∀ y ∈ l, key y ≠ key x → F y = none) (hcx : F x = some c) :
    l.filterMap F = [c] := by
  induction l with
  | nil => cases hx
  | cons z zs ih =>
      rw [List.map_cons, nodupKeys, Bool.and_eq_true] at hnd
      rcases List.mem_cons.mp hx with h1 | h1
      · subst h1
        have hzs : zs.filterMap F = [] := by
          rw [List.filterMap_eq_nil_iff]
          intro y hy
          apply hother y (List.mem_cons_of_mem _ hy)
          intro hk
          have hmem : key x ∈ zs.map key := hk ▸ List.mem_map_of_mem key hy
          have hc : (zs.map key).contains (key x) = true :=
            List.elem_eq_true_of_mem hmem
          rw [hc] at hnd
          simp at hnd
        rw [List.filterMap_cons_some hcx, hzs]
      · have hz : F z = none := by
          apply hother z (List.mem_cons_self z zs)
          intro hk
          have hmem : key z ∈ zs.map key := by
            rw [hk]
            exact List.mem_map_of_mem key h1
          have hc : (zs.map key).contains (key z) = true :=
            List.elem_eq_true_of_mem hmem
          rw [hc] at hnd
          simp at hnd
        rw [List.filterMap_cons_none hz]
        exact ih hnd.2 h1 (fun y hy hk => hother y (List.mem_cons_of_mem _ hy) hk)

theorem argChangesBreakingForType_update_target
    (g : List ArgumentDef → List ArgumentDef) (t : TypeDef) (hwt : t.wf = true)
    (f : FieldDef) (hf : f ∈ t.getFields) :
    argChangesBreakingForType t (updateArgsInType t.name f.name g t)
      = argChangesBreakingForField t.name f (updateArgsInField f.name g f) := by
  rw [argChangesBreakingForType, sameObjectOrInterfaceScope_update,
    if_pos (isObjectOrInterface_of_mem_fields hf)]
  simp only [updateArgsInType_getFields, beq_self_eq_true, if_true,
    find?_fields_update]
  refine (flatMap_eq_single_of_nodupKey FieldDef.name t.getFields _ f
    (TypeDef.wf_fields_nodup hwt) hf ?_).trans ?_
  · intro f' hf' hne
    simp only [find?_key_of_nodup FieldDef.name t.getFields f'
      (TypeDef.wf_fields_nodup hwt) hf', Option.map_some']
    rw [updateArgsInField_other f.name g f' hne]
    exact argChangesBreakingForField_self t.name f' (TypeDef.wf_field hwt hf')
  · simp only [find?_key_of_nodup FieldDef.name t.getFields f
      (TypeDef.wf_fields_nodup hwt) hf, Option.map_some']

theorem argChangesDangerousForType_update_target
    (g : List ArgumentDef → List ArgumentDef) (t : TypeDef) (hwt : t.wf = true)
    (f : FieldDef) (hf : f ∈ t.getFields) :
    argChangesDangerousForType t (updateArgsInType t.name f.name g t)
      = argChangesDangerousForField t.name t.astNode f
          (updateArgsInField f.name g f) := by
  rw [argChangesDangerousForType, sameObjectOrInterfaceScope_update,
    if_pos (isObjectOrInterface_of_mem_fields hf)]
  simp only [updateArgsInType_getFields, beq_self_eq_true, if_true,
    find?_fields_update]
  refine (flatMap_eq_single_of_nodupKey FieldDef.name t.getFields _ f
    (TypeDef.wf_fields_nodup hwt) hf ?_).trans ?_
  · intro f' hf' hne
    simp only [find?_key_of_nodup FieldDef.name t.getFields f'
      (TypeDef.wf_fields_nodup hwt) hf', Option.map_some']
    rw [updateArgsInField_other f.name g f' hne]
    exact argChangesDangerousForField_self t.name t.astNode f'
      (TypeDef.wf_field hwt hf')
  · simp only [find?_key_of_nodup FieldDef.name t.getFields f
      (TypeDef.wf_fields_nodup hwt) hf, Option.map_some']

theorem findArgChangesBreaking_update (s : Schema) (hwf : s.wf = true)
    (t : TypeDef) (ht : t ∈ s.types) (f : FieldDef) (hf : f ∈ t.getFields)
    (g : List ArgumentDef → List ArgumentDef) :
    findArgChangesBreaking s (updateArgsInSchema t.name f.name g s)
      = argChangesBreakingForField t.name f (updateArgsInField f.name g f) := by
  rw [findArgChangesBreaking]
  refine (flatMap_eq_single_of_nodupKey TypeDef.name s.types _ t
    (Schema.wf_nodup hwf) ht ?_).trans ?_
  · intro t' ht' hne
    simp only [getType_update, getType_self s (Schema.wf_nodup hwf) ht',
      Option.map_some']
    rw [updateArgsInType_other t.name f.name g t' hne]
    exact argChangesBreakingForType_self t' (Schema.wf_type hwf ht')
  · simp only [getType_update, getType_self s (Schema.wf_nodup hwf) ht,
      Option.map_some']
    exact argChangesBreakingForType_update_target g t (Schema.wf_type hwf ht) f hf

theorem findArgChangesDangerous_update (s : Schema) (hwf : s.wf = true)
    (t : TypeDef) (ht : t ∈ s.types) (f : FieldDef) (hf : f ∈ t.getFields)
    (g : List ArgumentDef → List ArgumentDef) :
    findArgChangesDangerous s (updateArgsInSchema t.name f.name g s)
      = argChangesDangerousForField t.name t.astNode f
          (updateArgsInField f.name g f) := by
  rw [findArgChangesDangerous]
  refine (flatMap_eq_single_of_nodupKey TypeDef.name s.types _ t
    (Schema.wf_nodup hwf) ht ?_).trans ?_
  · intro t' ht' hne
    simp only [getType_update, getType_self s (Schema.wf_nodup hwf) ht',
      Option.map_some']
    rw [updateArgsInType_other t.name f.name g t' hne]
    exact argChangesDangerousForType_self t' (Schema.wf_type hwf ht')
  · simp only [getType_update, getType_self s (Schema.wf_nodup hwf) ht,
      Option.map_some']
    exact argChangesDangerousForType_update_target g t (Schema.wf_type hwf ht) f hf

/-- Changing only the argument list of one field of one type leaves every
pass except the Argument Comparator silent, and the latter reports exactly
what it reports on that field pair. -/
theorem detectChangesOnSchemas_update (s : Schema) (hwf : s.wf = true)
    (t : TypeDef) (ht : t ∈ s.types) (f : FieldDef) (hf : f ∈ t.getFields)
    (g : List ArgumentDef → List ArgumentDef) :
    detectChangesOnSchemas s (updateArgsInSchema t.name f.name g s)
      = (argChangesBreakingForField t.name f (updateArgsInField f.name g f),
         argChangesDangerousForField t.name t.astNode f
           (updateArgsInField f.name g f)) := by
  rw [detectChangesOnSchemas, findRemovedTypes_update,
    findTypesThatChangedKind_update t.name f.name g s (Schema.wf_nodup hwf),
    findFieldsThatChangedTypeOnObjectOrInterfaceTypes_update t.name f.name g s hwf,
    findArgChangesBreaking_update s hwf t ht f hf g,
    findValuesRemovedFromEnums_update t.name f.name g s (Schema.wf_nodup hwf),
    findArgChangesDangerous_update s hwf t ht f hf g]
  simp

theorem eq_of_mem_of_nodupKey {α : Type} (key : α → String) (l : List α)
    (hnd : nodupKeys (l.map key) = true) {x y : α} (hx : x ∈ l) (hy : y ∈ l)
    (hk : key x = key y) : x = y := by
  have h1 := find?_key_of_nodup key l x hnd hx
  have h2 := find?_key_of_nodup key l y hnd hy
  rw [hk] at h1
  rw [h1] at h2
  exact Option.some_inj.mp h2

/-- Setting the type of the argument named `an` (identity elsewhere). -/
def setArgTypeFn (an : String) (T : TypeRef) (x : ArgumentDef) : ArgumentDef :=
  if x.name == an then { x with type := T } else x

/-- The argument-list transformer that retypes argument `an`. -/
def setArgType (an : String) (T : TypeRef) (args : List ArgumentDef) :
    List ArgumentDef :=
  args.map (setArgTypeFn an T)

theorem setArgTypeFn_name (an : String) (T : TypeRef) (x : ArgumentDef) :
    (setArgTypeFn an T x).name = x.name := by
  rw [setArgTypeFn]
  split <;> rfl

theorem setArgTypeFn_defaultValue (an : String) (T : TypeRef) (x : ArgumentDef) :
    (setArgTypeFn an T x).defaultValue = x.defaultValue := by
  rw [setArgTypeFn]
  split <;> rfl

theorem setArgTypeFn_self (an : String) (T : TypeRef) (x : ArgumentDef)
    (h : x.name = an) : setArgTypeFn an T x = { x with type := T } := by
  rw [setArgTypeFn, if_pos (by simp [h])]

theorem setArgTypeFn_other (an : String) (T : TypeRef) (x : ArgumentDef)
    (h : x.name ≠ an) : setArgTypeFn an T x = x := by
  rw [setArgTypeFn, if_neg (by simp [h])]

theorem find?_args_map_self (args : List ArgumentDef)
    (hnd : nodupKeys (args.map ArgumentDef.name) = true)
    (u : ArgumentDef → ArgumentDef) (hu : ∀ x, (u x).name = x.name)
    {x : ArgumentDef} (hx : x ∈ args) :
    (args.map u).find? (fun y => y.name == x.name) = some (u x) := by
  rw [List.find?_map]
  have hpred : ((fun y : ArgumentDef => y.name == x.name) ∘ u)
      = (fun y : ArgumentDef => y.name == x.name) := by
    funext y
    simp [Function.comp, hu]
  rw [hpred, find?_key_of_nodup ArgumentDef.name args x hnd hx]
  rfl

/-- An argument rename-preserving rewrite of the argument list never makes
the added-argument scan fire (breaking half). -/
theorem newArgAddedBreakingChange_map_none (tn fn : String) (f : FieldDef)
    (u : ArgumentDef → ArgumentDef) (hu : ∀ x, (u x).name = x.name) :
    (f.args.map u).filterMap (newArgAddedBreakingChange tn fn f) = [] := by
  rw [List.filterMap_eq_nil_iff]
  intro y hy
  obtain ⟨x, hx, rfl⟩ := List.mem_map.mp hy
  rw [newArgAddedBreakingChange]
  have hsome : (f.args.find? (fun arg => arg.name == (u x).name)).isSome = true :=
    List.find?_isSome.mpr ⟨x, hx, by simp [hu]⟩
  obtain ⟨w, hw⟩ := Option.isSome_iff_exists.mp hsome
  rw [hw]

/-- An argument rename-preserving rewrite of the argument list never makes
the added-argument scan fire (dangerous half). -/
theorem newArgAddedDangerousChange_map_none (tn fn : String) (f : FieldDef)
    (u : ArgumentDef → ArgumentDef) (hu : ∀ x, (u x).name = x.name) :
    (f.args.map u).filterMap (newArgAddedDangerousChange tn fn f) = [] := by
  rw [List.filterMap_eq_nil_iff]
  intro y hy
  obtain ⟨x, hx, rfl⟩ := List.mem_map.mp hy
  rw [newArgAddedDangerousChange]
  have hsome : (f.args.find? (fun arg => arg.name == (u x).name)).isSome = true :=
    List.find?_isSome.mpr ⟨x, hx, by simp [hu]⟩
  obtain ⟨w, hw⟩ := Option.isSome_iff_exists.mp hsome
  rw [hw]

/-- A rewrite of the argument list preserving names and default values never
makes the default-value comparison fire on a parser-producible argument. -/
theorem oldArgDangerousChange_map_defaultPreserving (tn fn : String)
    (ast : Option ASTNode) (args : List ArgumentDef)
    (hnd : nodupKeys (args.map ArgumentDef.name) = true)
    (u : ArgumentDef → ArgumentDef) (hu : ∀ x, (u x).name = x.name)
    (hud : ∀ x, (u x).defaultValue = x.defaultValue)
    {x : ArgumentDef} (hx : x ∈ args)
    (hwx : optValueWf x.defaultValue = true) :
    oldArgDangerousChange tn fn ast (args.map u) x = none := by
  rw [oldArgDangerousChange, find?_args_map_self args hnd u hu hx]
  by_cases hsafe :
      isChangeSafeForInputObjectFieldOrFieldArg x.type (u x).type = true
  · simp only [hsafe, if_true]
    cases hd : x.defaultValue with
    | none => rfl
    | some v =>
        rw [hud x, hd]
        rw [hd] at hwx
        simp [isDefaultValueEqual_refl v hwx]
  · simp [hsafe]

/-- C4: for an argument surviving on a surviving field, weakening its type
from `NonNull(T)` to `T` produces no breaking and no dangerous change, while
strengthening `T` to `NonNull(T)` produces exactly one breaking change of
category `ARG_BECAME_REQUIRED`. -/
theorem argRequiredOptionalAsymmetry (s : Schema) (hwf : s.wf = true)
    (t : TypeDef) (ht : t ∈ s.types) (f : FieldDef) (hf : f ∈ t.getFields)
    (a : ArgumentDef) (ha : a ∈ f.args) :
    (∀ T : TypeRef, a.type = .nonNull T →
       detectChangesOnSchemas s
         (updateArgsInSchema t.name f.name (setArgType a.name T) s) = ([], [])) ∧
    (a.type.isNonNullType = false →
       ∃ c : Change,
         detectChangesOnSchemas s
           (updateArgsInSchema t.name f.name
             (setArgType a.name (.nonNull a.type)) s) = ([c], []) ∧
         c.type = .ARG_BECAME_REQUIRED) := by
  have hwt : t.wf = true := Schema.wf_type hwf ht
  have hfw : f.wf = true := TypeDef.wf_field hwt hf
  have hand : nodupKeys (f.args.map ArgumentDef.name) = true :=
    FieldDef.wf_args_nodup hfw
  have hdanger : ∀ T : TypeRef,
      argChangesDangerousForField t.name t.astNode f
        { f with args := setArgType a.name T f.args } = [] := by
    intro T
    rw [argChangesDangerousForField]
    rw [List.append_eq_nil]
    constructor
    · rw [List.filterMap_eq_nil_iff]
      intro x hx
      rw [setArgType]
      exact oldArgDangerousChange_map_defaultPreserving t.name f.name t.astNode
        f.args hand (setArgTypeFn a.name T) (setArgTypeFn_name a.name T)
        (setArgTypeFn_defaultValue a.name T) hx (FieldDef.wf_arg_default hfw hx)
    · rw [setArgType]
      exact newArgAddedDangerousChange_map_none t.name f.name f
        (setArgTypeFn a.name T) (setArgTypeFn_name a.name T)
  constructor
  · intro T hT
    rw [detectChangesOnSchemas_update s hwf t ht f hf (setArgType a.name T),
      updateArgsInField_self f.name (setArgType a.name T) f rfl]
    rw [Prod.mk.injEq]
    constructor
    · rw [argChangesBreakingForField]
      rw [List.append_eq_nil]
      constructor
      · rw [List.filterMap_eq_nil_iff]
        intro x hx
        rw [oldArgBreakingChange]
        rw [show ({ f with args := setArgType a.name T f.args } : FieldDef).args
          = setArgType a.name T f.args from rfl]
        rw [setArgType, find?_args_map_self f.args hand (setArgTypeFn a.name T)
          (setArgTypeFn_name a.name T) hx]
        by_cases hxa : x.name = a.name
        · have hxe : x = a :=
            eq_of_mem_of_nodupKey ArgumentDef.name f.args hand hx ha hxa
          rw [hxe]
          rw [setArgTypeFn_self a.name T a rfl]
          have hsafe : isChangeSafeForInputObjectFieldOrFieldArg a.type
              ({ a with type := T } : ArgumentDef).type = true := by
            rw [show ({ a with type := T } : ArgumentDef).type = T from rfl, hT]
            exact inputSafe_nonNull_to_inner T
          simp [hsafe]
        · rw [setArgTypeFn_other a.name T x hxa]
          simp [inputSafe_refl]
      · rw [show ({ f with args := setArgType a.name T f.args } : FieldDef).args
          = setArgType a.name T f.args from rfl]
        rw [setArgType]
        exact newArgAddedBreakingChange_map_none t.name f.name f
          (setArgTypeFn a.name T) (setArgTypeFn_name a.name T)
    · exact hdanger T
  · intro hnn
    refine ⟨{ loc := some (getLocation a.astNode),
              message := "`" ++ t.name ++ "." ++ f.name ++ "` arg `" ++ a.name
                ++ "` changed type from `" ++ a.type.toString ++ "` to `"
                ++ TypeRef.toString (.nonNull a.type) ++ "`",
              resourceName := f.name ++ "." ++ a.name,
              type := .ARG_BECAME_REQUIRED,
              wasDeprecated := isDeprecated a.astNode,
              wasRequiredByDirective :=
                match a.astNode with
                | some n => some (n.directives.contains "required")
                | none => none }, ?_, rfl⟩
    rw [detectChangesOnSchemas_update s hwf t ht f hf
        (setArgType a.name (.nonNull a.type)),
      updateArgsInField_self f.name (setArgType a.name (.nonNull a.type)) f rfl]
    rw [Prod.mk.injEq]
    constructor
    · rw [argChangesBreakingForField]
      have h2 : (({ f with args := setArgType a.name (.nonNull a.type) f.args }
          : FieldDef).args).filterMap
          (newArgAddedBreakingChange t.name f.name f) = [] := by
        rw [show ({ f with args := setArgType a.name (.nonNull a.type) f.args }
          : FieldDef).args = setArgType a.name (.nonNull a.type) f.args from rfl]
        rw [setArgType]
        exact newArgAddedBreakingChange_map_none t.name f.name f
          (setArgTypeFn a.name (.nonNull a.type))
          (setArgTypeFn_name a.name (.nonNull a.type))
      rw [h2, List.append_nil]
      apply filterMap_eq_single_of_nodupKey ArgumentDef.name f.args _ a _
        hand ha
      · intro y hy hne
        rw [oldArgBreakingChange]
        rw [show ({ f with args := setArgType a.name (.nonNull a.type) f.args }
          : FieldDef).args = setArgType a.name (.nonNull a.type) f.args from rfl]
        rw [setArgType, find?_args_map_self f.args hand
          (setArgTypeFn a.name (.nonNull a.type))
          (setArgTypeFn_name a.name (.nonNull a.type)) hy]
        rw [setArgTypeFn_other a.name (.nonNull a.type) y hne]
        simp [inputSafe_refl]
      · rw [oldArgBreakingChange]
        rw [show ({ f with args := setArgType a.name (.nonNull a.type) f.args }
          : FieldDef).args = setArgType a.name (.nonNull a.type) f.args from rfl]
        rw [setArgType, find?_args_map_self f.args hand
          (setArgTypeFn a.name (.nonNull a.type))
          (setArgTypeFn_name a.name (.nonNull a.type)) ha]
        rw [setArgTypeFn_self a.name (.nonNull a.type) a rfl]
        have hsafe : isChangeSafeForInputObjectFieldOrFieldArg a.type
            ({ a with type := TypeRef.nonNull a.type } : ArgumentDef).type
            = false := by
          rw [show ({ a with type := TypeRef.nonNull a.type } : ArgumentDef).type
            = TypeRef.nonNull a.type from rfl]
        
          exact inputSafe_to_nonNull_false a.type hnn
        simp only [hsafe, Bool.false_eq_true, if_false]
        have hcond : (a.name == a.name
            && (TypeRef.nonNull a.type).isNonNullType
            && !a.type.isNonNullType) = true := by
          rw [hnn]
          simp [TypeRef.isNonNullType]
        simp only [hcond, if_true]
    · exact hdanger (.nonNull a.type)

def c4ArgReq : ArgumentDef :=
  { name := "id", type := TypeRef.nonNull (TypeRef.named "String"),
    defaultValue := none, astNode := none }

def c4ArgOpt : ArgumentDef :=
  { name := "id", type := TypeRef.named "String",
    defaultValue := none, astNode := none }

def c4FieldReq : FieldDef :=
  { name := "user", type := TypeRef.named "String", args := [c4ArgReq],
    astNode := none }

def c4FieldOpt : FieldDef :=
  { name := "user", type := TypeRef.named "String", args := [c4ArgOpt],
    astNode := none }

def c4TypeReq : TypeDef := TypeDef.object "Query" [c4FieldReq] none

def c4TypeOpt : TypeDef := TypeDef.object "Query" [c4FieldOpt] none

def exampleSchemaC4Req : Schema := { types := [c4TypeReq] }

def exampleSchemaC4Opt : Schema := { types := [c4TypeOpt] }

/-- Closed instance of C4: `user(id: String!) → user(id: String)` yields
nothing, and `user(id: String) → user(id: String!)` yields exactly one
`ARG_BECAME_REQUIRED`. -/
theorem argRequiredOptionalAsymmetry_witness :
    (detectChangesOnSchemas exampleSchemaC4Req
       (updateArgsInSchema "Query" "user"
         (setArgType "id" (TypeRef.named "String")) exampleSchemaC4Req)
       = ([], [])) ∧
    (∃ c : Change,
       detectChangesOnSchemas exampleSchemaC4Opt
         (updateArgsInSchema "Query" "user"
           (setArgType "id" (TypeRef.nonNull (TypeRef.named "String")))
           exampleSchemaC4Opt) = ([c], []) ∧
       c.type = .ARG_BECAME_REQUIRED) := by
  constructor
  · exact (argRequiredOptionalAsymmetry exampleSchemaC4Req (by decide) c4TypeReq
      (List.mem_cons_self _ _) c4FieldReq (List.mem_cons_self _ _) c4ArgReq
      (List.mem_cons_self _ _)).1 (TypeRef.named "String") rfl
  · exact (argRequiredOptionalAsymmetry exampleSchemaC4Opt (by decide) c4TypeOpt
      (List.mem_cons_self _ _) c4FieldOpt (List.mem_cons_self _ _) c4ArgOpt
      (List.mem_cons_self _ _)).2 rfl

/-- The argument-list transformer that appends one argument. -/
def addArg (newArg : ArgumentDef) (args : List ArgumentDef) : List ArgumentDef :=
  args ++ [newArg]

theorem oldArgBreakingChange_append_self (tn fn : String) (ast : Option ASTNode)
    (args extra : List ArgumentDef)
    (hnd : nodupKeys (args.map ArgumentDef.name) = true)
    {x : ArgumentDef} (hx : x ∈ args) :
    oldArgBreakingChange tn fn ast (args ++ extra) x = none := by
  rw [oldArgBreakingChange, List.find?_append,
    find?_key_of_nodup ArgumentDef.name args x hnd hx]
  simp [inputSafe_refl]

theorem oldArgDangerousChange_append_self (tn fn : String) (ast : Option ASTNode)
    (args extra : List ArgumentDef)
    (hnd : nodupKeys (args.map ArgumentDef.name) = true)
    {x : ArgumentDef} (hx : x ∈ args)
    (hwx : optValueWf x.defaultValue = true) :
    oldArgDangerousChange tn fn ast (args ++ extra) x = none := by
  rw [oldArgDangerousChange, List.find?_append,
    find?_key_of_nodup ArgumentDef.name args x hnd hx]
  rw [show ((some x).or (extra.find? (fun arg => arg.name == x.name))
    : Option ArgumentDef) = some x from rfl]
  simp only [inputSafe_refl, if_true]
  cases hd : x.defaultValue with
  | none => rfl
  | some v =>
      rw [hd] at hwx
      simp [isDefaultValueEqual_refl v hwx]

/-- C5: adding a fresh argument to a surviving field yields exactly one
breaking `REQUIRED_ARG_ADDED` when the argument is non-null with no default,
and exactly one dangerous `OPTIONAL_ARG_ADDED` otherwise; either way the
resource name is the type-qualified `Type.field`. -/
theorem addedArgClassification (s : Schema) (hwf : s.wf = true)
    (t : TypeDef) (ht : t ∈ s.types) (f : FieldDef) (hf : f ∈ t.getFields)
    (newArg : ArgumentDef) (hfresh : ∀ x ∈ f.args, x.name ≠ newArg.name) :
    (isRequiredArgument newArg = true →
       ∃ c : Change,
         detectChangesOnSchemas s
           (updateArgsInSchema t.name f.name (addArg newArg) s) = ([c], []) ∧
         c.type = .REQUIRED_ARG_ADDED ∧
         c.resourceName = t.name ++ "." ++ f.name) ∧
    (isRequiredArgument newArg = false →
       ∃ c : Change,
         detectChangesOnSchemas s
           (updateArgsInSchema t.name f.name (addArg newArg) s) = ([], [c]) ∧
         c.type = .OPTIONAL_ARG_ADDED ∧
         c.resourceName = t.name ++ "." ++ f.name) := by
  have hwt : t.wf = true := Schema.wf_type hwf ht
  have hfw : f.wf = true := TypeDef.wf_field hwt hf
  have hand : nodupKeys (f.args.map ArgumentDef.name) = true :=
    FieldDef.wf_args_nodup hfw
  have hnotfound : f.args.find? (fun arg => arg.name == newArg.name) = none :=
    List.find?_eq_none.mpr (fun x hx => by simp [hfresh x hx])
  have hbase := detectChangesOnSchemas_update s hwf t ht f hf (addArg newArg)
  rw [updateArgsInField_self f.name (addArg newArg) f rfl] at hbase
  have hbreak1 : f.args.filterMap
      (oldArgBreakingChange t.name f.name
        ({ f with args := addArg newArg f.args } : FieldDef).astNode
        ({ f with args := addArg newArg f.args } : FieldDef).args) = [] := by
    rw [List.filterMap_eq_nil_iff]
    intro x hx
    exact oldArgBreakingChange_append_self t.name f.name f.astNode f.args
      [newArg] hand hx
  have hdanger1 : f.args.filterMap
      (oldArgDangerousChange t.name f.name t.astNode
        ({ f with args := addArg newArg f.args } : FieldDef).args) = [] := by
    rw [List.filterMap_eq_nil_iff]
    intro x hx
    exact oldArgDangerousChange_append_self t.name f.name t.astNode f.args
      [newArg] hand hx (FieldDef.wf_arg_default hfw hx)
  have hold2b : f.args.filterMap
      (newArgAddedBreakingChange t.name f.name f) = [] := by
    rw [List.filterMap_eq_nil_iff]
    intro x hx
    exact newArgAddedBreakingChange_self t.name f.name f hx
  have hold2d : f.args.filterMap
      (newArgAddedDangerousChange t.name f.name f) = [] := by
    rw [List.filterMap_eq_nil_iff]
    intro x hx
    exact newArgAddedDangerousChange_self t.name f.name f hx
  constructor
  · intro hreq
    refine ⟨{ loc := some (getLocation newArg.astNode),
              resourceName := t.name ++ "." ++ f.name,
              type := .REQUIRED_ARG_ADDED,
              message := "A required arg `" ++ newArg.name ++ "` on `"
                ++ t.name ++ "." ++ f.name ++ "` was added",
              wasDeprecated := isDeprecated f.astNode,
              wasRequiredByDirective := none }, ?_, rfl, rfl⟩
    rw [hbase, Prod.mk.injEq]
    constructor
    · rw [argChangesBreakingForField, hbreak1, List.nil_append]
      rw [show ({ f with args := addArg newArg f.args } : FieldDef).args
        = f.args ++ [newArg] from rfl]
      rw [List.filterMap_append, hold2b, List.nil_append]
      rw [List.filterMap_cons, newArgAddedBreakingChange, hnotfound]
      simp [hreq]
    · rw [argChangesDangerousForField, hdanger1, List.nil_append]
      rw [show ({ f with args := addArg newArg f.args } : FieldDef).args
        = f.args ++ [newArg] from rfl]
      rw [List.filterMap_append, hold2d, List.nil_append]
      rw [List.filterMap_cons, newArgAddedDangerousChange, hnotfound]
      simp [hreq]
  · intro hreq
    refine ⟨{ loc := some (getLocation newArg.astNode),
              resourceName := t.name ++ "." ++ f.name,
              type := .OPTIONAL_ARG_ADDED,
              message := "An optional arg `" ++ newArg.name ++ "` on `"
                ++ t.name ++ "." ++ f.name ++ "` was added",
              wasDeprecated := isDeprecated f.astNode,
              wasRequiredByDirective := none }, ?_, rfl, rfl⟩
    rw [hbase, Prod.mk.injEq]
    constructor
    · rw [argChangesBreakingForField, hbreak1, List.nil_append]
      rw [show ({ f with args := addArg newArg f.args } : FieldDef).args
        = f.args ++ [newArg] from rfl]
      rw [List.filterMap_append, hold2b, List.nil_append]
      rw [List.filterMap_cons, newArgAddedBreakingChange, hnotfound]
      simp [hreq]
    · rw [argChangesDangerousForField, hdanger1, List.nil_append]
      rw [show ({ f with args := addArg newArg f.args } : FieldDef).args
        = f.args ++ [newArg] from rfl]
      rw [List.filterMap_append, hold2d, List.nil_append]
      rw [List.filterMap_cons, newArgAddedDangerousChange, hnotfound]
      simp [hreq]

def c5NewArgReq : ArgumentDef :=
  { name := "name", type := TypeRef.nonNull (TypeRef.named "String"),
    defaultValue := none, astNode := none }

def c5NewArgOpt : ArgumentDef :=
  { name := "name", type := TypeRef.named "String",
    defaultValue := none, astNode := none }

/-- Closed instance of C5: adding `name: String!` to `user(id: String)`
yields one breaking `REQUIRED_ARG_ADDED`; adding `name: String` yields one
dangerous `OPTIONAL_ARG_ADDED`. -/
theorem addedArgClassification_witness :
    (∃ c : Change,
       detectChangesOnSchemas exampleSchemaC4Opt
         (updateArgsInSchema "Query" "user" (addArg c5NewArgReq)
           exampleSchemaC4Opt) = ([c], []) ∧
       c.type = .REQUIRED_ARG_ADDED ∧
       c.resourceName = "Query" ++ "." ++ "user") ∧
    (∃ c : Change,
       detectChangesOnSchemas exampleSchemaC4Opt
         (updateArgsInSchema "Query" "user" (addArg c5NewArgOpt)
           exampleSchemaC4Opt) = ([], [c]) ∧
       c.type = .OPTIONAL_ARG_ADDED ∧
       c.resourceName = "Query" ++ "." ++ "user") := by
  constructor
  · exact (addedArgClassification exampleSchemaC4Opt (by decide) c4TypeOpt
      (List.mem_cons_self _ _) c4FieldOpt (List.mem_cons_self _ _) c5NewArgReq
      (by decide)).1 rfl
  · exact (addedArgClassification exampleSchemaC4Opt (by decide) c4TypeOpt
      (List.mem_cons_self _ _) c4FieldOpt (List.mem_cons_self _ _) c5NewArgOpt
      (by decide)).2 rfl

theorem oldArgBreakingChange_map_typePreserving (tn fn : String)
    (ast : Option ASTNode) (args : List ArgumentDef)
    (hnd : nodupKeys (args.map ArgumentDef.name) = true)
    (u : ArgumentDef → ArgumentDef) (hu : ∀ x, (u x).name = x.name)
    (hut : ∀ x, (u x).type = x.type) {x : ArgumentDef} (hx : x ∈ args) :
    oldArgBreakingChange tn fn ast (args.map u) x = none := by
  rw [oldArgBreakingChange, find?_args_map_self args hnd u hu hx]
  have hsafe : isChangeSafeForInputObjectFieldOrFieldArg x.type (u x).type
      = true := by
    rw [hut]
    exact inputSafe_refl x.type
  simp [hsafe]

/-- Setting the default value of the argument named `an` (identity
elsewhere). -/
def setArgDefaultFn (an : String) (dv : Option Value) (x : ArgumentDef) :
    ArgumentDef :=
  if x.name == an then { x with defaultValue := dv } else x

/-- The argument-list transformer that changes the default of argument
`an`. -/
def setArgDefault (an : String) (dv : Option Value) (args : List ArgumentDef) :
    List ArgumentDef :=
  args.map (setArgDefaultFn an dv)

theorem setArgDefaultFn_name (an : String) (dv : Option Value) (x : ArgumentDef) :
    (setArgDefaultFn an dv x).name = x.name := by
  rw [setArgDefaultFn]
  split <;> rfl

theorem setArgDefaultFn_type (an : String) (dv : Option Value) (x : ArgumentDef) :
    (setArgDefaultFn an dv x).type = x.type := by
  rw [setArgDefaultFn]
  split <;> rfl

theorem setArgDefaultFn_self (an : String) (dv : Option Value) (x : ArgumentDef)
    (h : x.name = an) : setArgDefaultFn an dv x = { x with defaultValue := dv } := by
  rw [setArgDefaultFn, if_pos (by simp [h])]

theorem setArgDefaultFn_other (an : String) (dv : Option Value) (x : ArgumentDef)
    (h : x.name ≠ an) : setArgDefaultFn an dv x = x := by
  rw [setArgDefaultFn, if_neg (by simp [h])]

theorem isDefaultValueEqual_int_ne :
    isDefaultValueEqual (Value.int 1) (Value.int 2) = false := by
  rw [isDefaultValueEqual]
  case x_2 => intro xs ys h1 h2; exact Value.noConfusion h1
  case x_3 => intro xs gs h1 h2; exact Value.noConfusion h1
  case x_4 => intro fs h; exact Value.noConfusion h
  simp [strictEq, isNullValue, typeofV]

/-- Deep equality is order-sensitive for lists. -/
theorem isDefaultValueEqual_list_order :
    isDefaultValueEqual (.list [Value.int 1, Value.int 2])
      (.list [Value.int 2, Value.int 1]) = false := by
  rw [isDefaultValueEqual]
  simp only [strictEq_list_list, isNullValue_list, Bool.false_eq_true, if_false,
    Bool.or_self, typeofV, bne_self_eq_false]
  rw [Bool.eq_false_iff]
  intro hcontra
  rw [Bool.and_eq_true, List.all_eq_true] at hcontra
  have hmem : (Value.int 1, Value.int 2)
      ∈ ([Value.int 1, Value.int 2].zip [Value.int 2, Value.int 1]) :=
    List.mem_cons_self _ _
  have hpair := hcontra.2 ⟨(Value.int 1, Value.int 2), hmem⟩ (List.mem_attach _ _)
  simp only [] at hpair
  rw [isDefaultValueEqual_int_ne] at hpair
  exact Bool.false_ne_true hpair

/-- The amended C6: for a surviving, type-unchanged argument, a dangerous
`ARG_DEFAULT_VALUE_CHANGE` is emitted exactly when the old argument had an
explicitly set default and the new default is not deep-equal to it; a
transition from no default to some default is never flagged; deep equality
is recursive, order-sensitive for lists and key-set-and-value based
(key-order insensitive) for objects. -/
theorem argDefaultValueChangeCharacterisation (s : Schema) (hwf : s.wf = true)
    (t : TypeDef) (ht : t ∈ s.types) (f : FieldDef) (hf : f ∈ t.getFields)
    (a : ArgumentDef) (ha : a ∈ f.args) (dv : Option Value) :
    ((detectChangesOnSchemas s
        (updateArgsInSchema t.name f.name (setArgDefault a.name dv) s)).fst
      = []) ∧
    (a.defaultValue = none →
      (detectChangesOnSchemas s
        (updateArgsInSchema t.name f.name (setArgDefault a.name dv) s)).snd
      = []) ∧
    (∀ ov : Value, a.defaultValue = some ov →
      isDefaultValueEqualOpt a.defaultValue dv = true →
      (detectChangesOnSchemas s
        (updateArgsInSchema t.name f.name (setArgDefault a.name dv) s)).snd
      = []) ∧
    (∀ ov : Value, a.defaultValue = some ov →
      isDefaultValueEqualOpt a.defaultValue dv = false →
      ∃ c : Change,
        (detectChangesOnSchemas s
          (updateArgsInSchema t.name f.name (setArgDefault a.name dv) s)).snd
        = [c] ∧ c.type = .ARG_DEFAULT_VALUE_CHANGE) ∧
    (∀ fs gs : List (String × Value), fs.Perm gs → (Value.obj fs).wf = true →
      isDefaultValueEqual (.obj fs) (.obj gs) = true) ∧
    (isDefaultValueEqual (.list [Value.int 1, Value.int 2])
      (.list [Value.int 2, Value.int 1]) = false) := by
  have hwt : t.wf = true := Schema.wf_type hwf ht
  have hfw : f.wf = true := TypeDef.wf_field hwt hf
  have hand : nodupKeys (f.args.map ArgumentDef.name) = true :=
    FieldDef.wf_args_nodup hfw
  have hbase := detectChangesOnSchemas_update s hwf t ht f hf
    (setArgDefault a.name dv)
  rw [updateArgsInField_self f.name (setArgDefault a.name dv) f rfl] at hbase
  have hother : ∀ y ∈ f.args, y.name ≠ a.name →
      oldArgDangerousChange t.name f.name t.astNode
        (setArgDefault a.name dv f.args) y = none := by
    intro y hy hne
    rw [oldArgDangerousChange, setArgDefault,
      find?_args_map_self f.args hand (setArgDefaultFn a.name dv)
        (setArgDefaultFn_name a.name dv) hy,
      setArgDefaultFn_other a.name dv y hne]
    simp only [inputSafe_refl, if_true]
    cases hd : y.defaultValue with
    | none => rfl
    | some v =>
        have hwy := FieldDef.wf_arg_default hfw hy
        rw [hd] at hwy
        simp [isDefaultValueEqual_refl v hwy]
  have hat : oldArgDangerousChange t.name f.name t.astNode
      (setArgDefault a.name dv f.args) a
      = (match a.defaultValue with
         | none => none
         | some ov =>
             if (match dv with
                 | some nv => isDefaultValueEqual ov nv
                 | none => false) then none
             else some { loc := some (getLocation a.astNode),
                         resourceName := f.name ++ "." ++ a.name,
                         type := .ARG_DEFAULT_VALUE_CHANGE,
                         message := "`" ++ t.name ++ "." ++ f.name ++ "` arg `"
                           ++ a.name ++ "` has changed defaultValue",
                         wasDeprecated := isDeprecated t.astNode,
                         wasRequiredByDirective := none }) := by
    rw [oldArgDangerousChange, setArgDefault,
      find?_args_map_self f.args hand (setArgDefaultFn a.name dv)
        (setArgDefaultFn_name a.name dv) ha,
      setArgDefaultFn_self a.name dv a rfl]
    simp only [inputSafe_refl, if_true]
  have hpart2 : (setArgDefault a.name dv f.args).filterMap
      (newArgAddedDangerousChange t.name f.name f) = [] := by
    rw [setArgDefault]
    exact newArgAddedDangerousChange_map_none t.name f.name f
      (setArgDefaultFn a.name dv) (setArgDefaultFn_name a.name dv)
  have hbreaking : argChangesBreakingForField t.name f
      { f with args := setArgDefault a.name dv f.args } = [] := by
    rw [argChangesBreakingForField, List.append_eq_nil]
    constructor
    · rw [List.filterMap_eq_nil_iff]
      intro x hx
      exact oldArgBreakingChange_map_typePreserving t.name f.name f.astNode
        f.args hand (setArgDefaultFn a.name dv)
        (setArgDefaultFn_name a.name dv) (setArgDefaultFn_type a.name dv) hx
    · exact newArgAddedBreakingChange_map_none t.name f.name f
        (setArgDefaultFn a.name dv) (setArgDefaultFn_name a.name dv)
  refine ⟨by rw [hbase]; exact hbreaking, ?_, ?_, ?_,
    isDefaultValueEqual_obj_perm, isDefaultValueEqual_list_order⟩
  · intro hnone
    rw [hbase]
    show argChangesDangerousForField t.name t.astNode f
      { f with args := setArgDefault a.name dv f.args } = []
    rw [argChangesDangerousForField, hpart2, List.append_nil,
      List.filterMap_eq_nil_iff]
    intro x hx
    by_cases hxa : x.name = a.name
    · have hxe : x = a :=
        eq_of_mem_of_nodupKey ArgumentDef.name f.args hand hx ha hxa
      rw [hxe, hat, hnone]
    · exact hother x hx hxa
  · intro ov hov heq
    rw [hbase]
    show argChangesDangerousForField t.name t.astNode f
      { f with args := setArgDefault a.name dv f.args } = []
    rw [argChangesDangerousForField, hpart2, List.append_nil,
      List.filterMap_eq_nil_iff]
    intro x hx
    by_cases hxa : x.name = a.name
    · have hxe : x = a :=
        eq_of_mem_of_nodupKey ArgumentDef.name f.args hand hx ha hxa
      rw [hxe, hat, hov]
      rw [hov] at heq
      cases dv with
      | some nv =>
          have heq2 : isDefaultValueEqual ov nv = true := heq
          simp [heq2]
      | none => simp [isDefaultValueEqualOpt] at heq
    · exact hother x hx hxa
  · intro ov hov hneq
    rw [hbase]
    show ∃ c : Change, argChangesDangerousForField t.name t.astNode f
      { f with args := setArgDefault a.name dv f.args } = [c] ∧
      c.type = .ARG_DEFAULT_VALUE_CHANGE
    refine ⟨{ loc := some (getLocation a.astNode),
              resourceName := f.name ++ "." ++ a.name,
              type := .ARG_DEFAULT_VALUE_CHANGE,
              message := "`" ++ t.name ++ "." ++ f.name ++ "` arg `"
                ++ a.name ++ "` has changed defaultValue",
              wasDeprecated := isDeprecated t.astNode,
              wasRequiredByDirective := none }, ?_, rfl⟩
    rw [argChangesDangerousForField, hpart2, List.append_nil]
    apply filterMap_eq_single_of_nodupKey ArgumentDef.name f.args _ a _ hand ha
    · intro y hy hne
      exact hother y hy hne
    · rw [hat, hov]
      rw [hov] at hneq
      cases dv with
      | some nv =>
          have hneq2 : isDefaultValueEqual ov nv = false := hneq
          simp [hneq2]
      | none => simp

theorem isDefaultValueEqual_str (s1 s2 : String) :
    isDefaultValueEqual (Value.str s1) (Value.str s2) = (s1 == s2) := by
  rw [isDefaultValueEqual]
  case x_2 => intro xs ys h1 h2; exact Value.noConfusion h1
  case x_3 => intro xs gs h1 h2; exact Value.noConfusion h1
  case x_4 => intro fs h; exact Value.noConfusion h
  cases hbe : (s1 == s2) with
  | true => simp [strictEq, hbe]
  | false => simp [strictEq, hbe, isNullValue, typeofV]

def c6Arg : ArgumentDef :=
  { name := "id", type := TypeRef.named "String",
    defaultValue := some (Value.str "default"), astNode := none }

def c6Field : FieldDef :=
  { name := "user", type := TypeRef.named "String", args := [c6Arg],
    astNode := none }

def c6Type : TypeDef := TypeDef.object "Query" [c6Field] none

def exampleSchemaC6 : Schema := { types := [c6Type] }

/-- Closed instance of the amended C6: changing `id: String = "default"` to
`id: String = "new_default"` yields exactly one dangerous
`ARG_DEFAULT_VALUE_CHANGE`. -/
theorem argDefaultValueChangeCharacterisation_witness :
    ∃ c : Change,
      (detectChangesOnSchemas exampleSchemaC6
        (updateArgsInSchema "Query" "user"
          (setArgDefault "id" (some (Value.str "new_default")))
          exampleSchemaC6)).snd = [c] ∧
      c.type = .ARG_DEFAULT_VALUE_CHANGE :=
  (argDefaultValueChangeCharacterisation exampleSchemaC6 (by decide) c6Type
    (List.mem_cons_self _ _) c6Field (List.mem_cons_self _ _) c6Arg
    (List.mem_cons_self _ _)
    (some (Value.str "new_default"))).2.2.2.1 (Value.str "default") rfl
    (by simp [isDefaultValueEqualOpt, c6Arg, isDefaultValueEqual_str])

/-- C6 counterexample: the deep-equality routine is not NaN-safe.  A NaN-safe
structural equality treats NaN as equal to itself (as `Object.is` or lodash
`isEqual` do); `isDefaultValueEqual` instead follows `===` on numbers, so
NaN compares unequal to itself, and an explicitly NaN-valued default that
stays NaN would be reported as changed. -/
theorem isDefaultValueEqual_nan_not_nanSafe :
    isDefaultValueEqual Value.nan Value.nan = false ∧
    isDefaultValueEqualOpt (some Value.nan) (some Value.nan) = false := by
  have hnan : isDefaultValueEqual Value.nan Value.nan = false := by
    rw [isDefaultValueEqual]
    case x_2 => intro xs ys h1 h2; exact Value.noConfusion h1
    case x_3 => intro xs gs h1 h2; exact Value.noConfusion h1
    case x_4 => intro fs h; exact Value.noConfusion h
    simp [strictEq, isNullValue, typeofV]
  exact ⟨hnan, hnan⟩

/-- Every change produced by the field comparator on one type pair is a
`FIELD_REMOVED` or a `FIELD_CHANGED_KIND`. -/
theorem findFields_onType_change_types (typeName : String)
    (oldType newType : TypeDef) :
    ∀ c ∈ findFieldsThatChangedTypeOnObjectOrInterfaceType typeName
        oldType newType,
      c.type = .FIELD_REMOVED ∨ c.type = .FIELD_CHANGED_KIND := by
  intro c hc
  rw [findFieldsThatChangedTypeOnObjectOrInterfaceType] at hc
  obtain ⟨f, hfm, hcf⟩ := List.mem_filterMap.mp hc
  cases hfind : newType.getFields.find? (fun g => g.name == f.name) with
  | none =>
      rw [hfind] at hcf
      left
      rw [← Option.some_inj.mp hcf]
  | some nf =>
      simp only [hfind] at hcf
      by_cases hsafe :
          isChangeSafeForObjectOrInterfaceField f.type nf.type = true
      · rw [if_pos hsafe] at hcf
        exact absurd hcf (by simp)
      · rw [if_neg hsafe] at hcf
        right
        rw [← Option.some_inj.mp hcf]

theorem head_key_false_of_mem {α : Type} (key : α → String) {z : α}
    {zs : List α} (h : (!(zs.map key).contains (key z)) = true) {x : α}
    (hx : x ∈ zs) : key z ≠ key x := by
  intro hk
  have hmem : key z ∈ zs.map key := by
    rw [hk]
    exact List.mem_map_of_mem key hx
  have hc : (zs.map key).contains (key z) = true :=
    List.elem_eq_true_of_mem hmem
  rw [hc] at h
  simp at h

theorem count_flatMap_single {α β : Type} [BEq β] [LawfulBEq β] (key : α → String)
    (l : List α) (F : α → List β) (x : α) (c : β)
    (hnd : nodupKeys (l.map key) = true) (hx : x ∈ l)
    (hcx : (F x).count c = 1)
    (hother : ∀ y ∈ l, key y ≠ key x → (F y).count c = 0) :
    (l.flatMap F).count c = 1 := by
  induction l with
  | nil => cases hx
  | cons z zs ih =>
      rw [List.map_cons, nodupKeys, Bool.and_eq_true] at hnd
      rw [List.flatMap_cons, List.count_append]
      rcases List.mem_cons.mp hx with h1 | h1
      · subst h1
        have hzs : (zs.flatMap F).count c = 0 := by
          rw [List.count_eq_zero]
          intro hmem
          obtain ⟨y, hy, hcy⟩ := List.mem_flatMap.mp hmem
          have hkey : key x ≠ key y := head_key_false_of_mem key hnd.1 hy
          have h0 := hother y (List.mem_cons_of_mem _ hy) (Ne.symm hkey)
          rw [List.count_eq_zero] at h0
          exact h0 hcy
        rw [hcx, hzs]
      · have hkey : key z ≠ key x := head_key_false_of_mem key hnd.1 h1
        have hz : (F z).count c = 0 := hother z (List.mem_cons_self z zs) hkey
        rw [hz, Nat.zero_add]
        exact ih hnd.2 h1
          (fun y hy hk => hother y (List.mem_cons_of_mem _ hy) hk)

/-- C2 (amended): a type present in both schemas whose structural category
changed yields exactly one `TYPE_CHANGED_KIND` change — except an
Object↔Interface transition, which the comparator special-cases: it emits
the field comparator's field-level changes for that pair and no
`TYPE_CHANGED_KIND` at all. -/
theorem typeKindChangeClassification (oldSchema newSchema : Schema)
    (hnd : nodupKeys (oldSchema.types.map TypeDef.name) = true)
    (t u : TypeDef) (ht : t ∈ oldSchema.types)
    (hu : newSchema.getType t.name = some u) (hk : t.kind ≠ u.kind) :
    (((isObjectType t && isInterfaceType u)
        || (isInterfaceType t && isObjectType u)) = false →
      (findTypesThatChangedKind oldSchema newSchema).count
        (typeChangedKindChange t u) = 1) ∧
    (((isObjectType t && isInterfaceType u)
        || (isInterfaceType t && isObjectType u)) = true →
      (∀ c ∈ findTypesThatChangedKind oldSchema newSchema,
         c.type = .TYPE_CHANGED_KIND → c.resourceName ≠ t.name) ∧
      (∀ c ∈ findFieldsThatChangedTypeOnObjectOrInterfaceType t.name t u,
         c ∈ findTypesThatChangedKind oldSchema newSchema)) := by
  have hkb : (t.kind == u.kind) = false := by
    simp only [beq_eq_false_iff_ne, ne_eq]
    exact hk
  constructor
  · intro hnoi
    rw [findTypesThatChangedKind]
    apply count_flatMap_single TypeDef.name oldSchema.types _ t
      (typeChangedKindChange t u) hnd ht
    · simp only [hu, hkb, Bool.false_eq_true, if_false, hnoi]
      simp
    · intro y hy hne
      cases hget : newSchema.getType y.name with
      | none => simp [hget]
      | some v =>
          simp only [hget]
          by_cases hkind : (y.kind == v.kind) = true
          · simp [hkind]
          · simp only [Bool.not_eq_true] at hkind
            by_cases hoi2 : ((isObjectType y && isInterfaceType v)
                || (isInterfaceType y && isObjectType v)) = true
            · simp only [hkind, Bool.false_eq_true, if_false, hoi2, if_true]
              rw [List.count_eq_zero]
              intro hcmem
              rcases findFields_onType_change_types y.name y v _ hcmem with
                h | h <;> simp [typeChangedKindChange] at h
            · simp only [Bool.not_eq_true] at hoi2
              simp only [hkind, Bool.false_eq_true, if_false, hoi2]
              rw [List.count_eq_zero]
              intro hcmem
              have heq := List.mem_singleton.mp hcmem
              have hname := congrArg Change.resourceName heq
              exact hne (by simpa [typeChangedKindChange] using hname.symm)
  · intro hoi
    constructor
    · intro c hc htype
      rw [findTypesThatChangedKind] at hc
      obtain ⟨y, hy, hcy⟩ := List.mem_flatMap.mp hc
      cases hget : newSchema.getType y.name with
      | none => simp [hget] at hcy
      | some v =>
          simp only [hget] at hcy
          by_cases hkind : (y.kind == v.kind) = true
          · simp [hkind] at hcy
          · simp only [Bool.not_eq_true] at hkind
            by_cases hoi2 : ((isObjectType y && isInterfaceType v)
                || (isInterfaceType y && isObjectType v)) = true
            · simp only [hkind, Bool.false_eq_true, if_false, hoi2,
                if_true] at hcy
              rcases findFields_onType_change_types y.name y v c hcy with
                h | h <;> rw [htype] at h <;> exact ChangeType.noConfusion h
            · simp only [Bool.not_eq_true] at hoi2
              simp only [hkind, Bool.false_eq_true, if_false, hoi2] at hcy
              have heq := List.mem_singleton.mp hcy
              intro hres
              have hyt : y = t := by
                apply eq_of_mem_of_nodupKey TypeDef.name oldSchema.types hnd
                  hy ht
                have : c.resourceName = y.name := by
                  rw [heq]
                  rfl
                rw [← this, hres]
              rw [hyt, hu] at hget
              have hvu : v = u := Option.some_inj.mp hget.symm
              rw [hyt, hvu] at hoi2
              rw [hoi2] at hoi
              exact Bool.false_ne_true hoi
    · intro c hc
      rw [findTypesThatChangedKind]
      apply List.mem_flatMap.mpr
      refine ⟨t, ht, ?_⟩
      simp only [hu, hkb, Bool.false_eq_true, if_false, hoi, if_true]
      exact hc

def c2OldType : TypeDef :=
  TypeDef.object "A"
    [{ name := "x", type := TypeRef.named "String", args := [],
       astNode := none }] none

def c2NewType : TypeDef := TypeDef.interface "A" [] none

def c2OldSchema : Schema := { types := [c2OldType] }

def c2NewSchema : Schema := { types := [c2NewType] }

def c2bOldType : TypeDef := TypeDef.object "B" [] none

def c2bNewType : TypeDef := TypeDef.scalar "B" none

def c2bOldSchema : Schema := { types := [c2bOldType] }

def c2bNewSchema : Schema := { types := [c2bNewType] }

/-- C2 counterexample: `A` changes structural category (Object→Interface)
between the two schemas, yet the Type-Kind Comparator emits no
`TYPE_CHANGED_KIND` change for it — the Object↔Interface transition is
special-cased and produces the field comparator's `FIELD_REMOVED` instead. -/
theorem findTypesThatChangedKind_objectInterface_counterexample :
    c2OldType.kind ≠ c2NewType.kind ∧
    (findTypesThatChangedKind c2OldSchema c2NewSchema).length = 1 ∧
    (∀ c ∈ findTypesThatChangedKind c2OldSchema c2NewSchema,
      c.type = .FIELD_REMOVED) := by
  refine ⟨by decide, by decide, by decide⟩

/-- Closed instance of the amended C2: Object→Scalar yields exactly one
`TYPE_CHANGED_KIND`; Object→Interface yields the field-level changes and no
`TYPE_CHANGED_KIND`. -/
theorem typeKindChangeClassification_witness :
    ((findTypesThatChangedKind c2bOldSchema c2bNewSchema).count
       (typeChangedKindChange c2bOldType c2bNewType) = 1) ∧
    ((∀ c ∈ findTypesThatChangedKind c2OldSchema c2NewSchema,
        c.type = .TYPE_CHANGED_KIND → c.resourceName ≠ c2OldType.name) ∧
     (∀ c ∈ findFieldsThatChangedTypeOnObjectOrInterfaceType c2OldType.name
        c2OldType c2NewType,
        c ∈ findTypesThatChangedKind c2OldSchema c2NewSchema)) :=
  ⟨(typeKindChangeClassification c2bOldSchema c2bNewSchema (by decide)
      c2bOldType c2bNewType (List.mem_cons_self _ _) rfl (by decide)).1 rfl,
   (typeKindChangeClassification c2OldSchema c2NewSchema (by decide)
      c2OldType c2NewType (List.mem_cons_self _ _) rfl (by decide)).2 rfl⟩

theorem count_filterMap_single {α β : Type} [BEq β] [LawfulBEq β]
    (key : α → String) (l : List α) (F : α → Option β) (x : α) (c : β)
    (hnd : nodupKeys (l.map key) = true) (hx : x ∈ l) (hcx : F x = some c)
    (hother : ∀ y ∈ l, key y ≠ key x → F y ≠ some c) :
    (l.filterMap F).count c = 1 := by
  induction l with
  | nil => cases hx
  | cons z zs ih =>
      rw [List.map_cons, nodupKeys, Bool.and_eq_true] at hnd
      rcases List.mem_cons.mp hx with h1 | h1
      · subst h1
        rw [List.filterMap_cons_some hcx, List.count_cons]
        have hzs : (zs.filterMap F).count c = 0 := by
          rw [List.count_eq_zero]
          intro hmem
          obtain ⟨y, hy, hFy⟩ := List.mem_filterMap.mp hmem
          have hkey : key x ≠ key y := head_key_false_of_mem key hnd.1 hy
          exact hother y (List.mem_cons_of_mem _ hy) (Ne.symm hkey) hFy
        rw [hzs]
        simp
      · have hkey : key z ≠ key x := head_key_false_of_mem key hnd.1 h1
        have hrest := ih hnd.2 h1
          (fun y hy hk => hother y (List.mem_cons_of_mem _ hy) hk)
        cases hFz : F z with
        | none => rw [List.filterMap_cons_none hFz]; exact hrest
        | some b =>
            rw [List.filterMap_cons_some hFz, List.count_cons, hrest]
            have hbc : (b == c) = false := by
              rw [beq_eq_false_iff_ne]
              intro hbceq
              exact hother z (List.mem_cons_self z zs) hkey (hbceq ▸ hFz)
            rw [hbc]
            simp

/-- The `TYPE_REMOVED` record of source lines 136-142. -/
def typeRemovedChange (t : TypeDef) : Change :=
  { loc := none,
    message := "`" ++ t.name ++ "` removed from schema",
    resourceName := t.name,
    type := .TYPE_REMOVED,
    wasDeprecated := isDeprecated t.astNode,
    wasRequiredByDirective := none }

/-- C7: the Type-Presence Scanner never reports a specified scalar, an
introspection type or a `__`-prefixed type; every other old type absent from
the new schema yields exactly one `TYPE_REMOVED` record with the type name
as resource, an absent loc, and the old type's deprecation marker. -/
theorem removedTypesCharacterisation (oldSchema newSchema : Schema)
    (hnd : nodupKeys (oldSchema.types.map TypeDef.name) = true) :
    ∀ t ∈ oldSchema.types,
      ((isIntrospectionType t || isSpecifiedScalarType t
          || startsWithDunder t.name) = true →
        ∀ c ∈ findRemovedTypes oldSchema newSchema, c.resourceName ≠ t.name) ∧
      ((isIntrospectionType t || isSpecifiedScalarType t
          || startsWithDunder t.name) = false →
        newSchema.getType t.name = none →
        (findRemovedTypes oldSchema newSchema).count (typeRemovedChange t)
          = 1) := by
  intro t ht
  constructor
  · intro hskip c hc hres
    rw [findRemovedTypes] at hc
    obtain ⟨y, hy, hFy⟩ := List.mem_filterMap.mp hc
    by_cases hyskip : (isIntrospectionType y || isSpecifiedScalarType y
        || startsWithDunder y.name) = true
    · rw [if_pos hyskip] at hFy
      exact Option.noConfusion hFy
    · rw [if_neg hyskip] at hFy
      by_cases habs : (newSchema.getType y.name).isNone = true
      · rw [if_pos habs] at hFy
        have hcres : c.resourceName = y.name := by
          rw [← Option.some_inj.mp hFy]
        have hyt : y = t :=
          eq_of_mem_of_nodupKey TypeDef.name oldSchema.types hnd hy ht
            (by rw [← hcres, hres])
        rw [hyt] at hyskip
        exact hyskip hskip
      · rw [if_neg habs] at hFy
        exact Option.noConfusion hFy
  · intro hskip hnone
    rw [findRemovedTypes]
    apply count_filterMap_single TypeDef.name oldSchema.types _ t
      (typeRemovedChange t) hnd ht
    · rw [if_neg (by rw [hskip]; exact Bool.false_ne_true)]
      rw [hnone]
      rfl
    · intro y hy hne
      by_cases hyskip : (isIntrospectionType y || isSpecifiedScalarType y
          || startsWithDunder y.name) = true
      · rw [if_pos hyskip]
        exact Option.noConfusion
      · rw [if_neg hyskip]
        by_cases habs : (newSchema.getType y.name).isNone = true
        · rw [if_pos habs]
          intro heq
          have := congrArg Change.resourceName (Option.some_inj.mp heq)
          exact hne (by simpa [typeRemovedChange] using this)
        · rw [if_neg habs]
          exact Option.noConfusion

def c7User : TypeDef := TypeDef.object "User" [] none

def c7Post : TypeDef :=
  TypeDef.object "Post" []
    (some { loc := some (5, 1), directives := ["deprecated"] })

def c7String : TypeDef := TypeDef.scalar "String" none

def c7OldSchema : Schema := { types := [c7User, c7Post, c7String] }

def c7NewSchema : Schema := { types := [c7User] }

/-- Closed instance of C7: dropping `Post` (while the built-in `String`
scalar also disappears from the new type map) reports exactly one
`TYPE_REMOVED` for `Post` and nothing for `String`. -/
theorem removedTypesCharacterisation_witness :
    (∀ c ∈ findRemovedTypes c7OldSchema c7NewSchema,
       c.resourceName ≠ c7String.name) ∧
    (findRemovedTypes c7OldSchema c7NewSchema).count
      (typeRemovedChange c7Post) = 1 :=
  ⟨(removedTypesCharacterisation c7OldSchema c7NewSchema (by decide) c7String
      (List.mem_cons_of_mem _ (List.mem_cons_of_mem _
        (List.mem_cons_self _ _)))).1 (by decide),
   (removedTypesCharacterisation c7OldSchema c7NewSchema (by decide) c7Post
      (List.mem_cons_of_mem _ (List.mem_cons_self _ _))).2 (by decide) rfl⟩

def c8OldField : FieldDef :=
  { name := "email", type := TypeRef.named "String", args := [],
    astNode := some { loc := some (5, 5), directives := [] } }

def c8OldType : TypeDef :=
  TypeDef.object "User" [c8OldField]
    (some { loc := some (1, 1), directives := [] })

def c8NewType : TypeDef :=
  TypeDef.object "User" []
    (some { loc := some (2, 7), directives := [] })

/-- C8 counterexample: the `FIELD_REMOVED` record points at the new type's
position (`2:7`), not at the old field's position (`5:5`), matching the
repository's own tests. -/
theorem fieldRemoved_loc_counterexample :
    (findFieldsThatChangedTypeOnObjectOrInterfaceType "User" c8OldType
      c8NewType).length = 1 ∧
    (∀ c ∈ findFieldsThatChangedTypeOnObjectOrInterfaceType "User" c8OldType
        c8NewType,
      c.type = .FIELD_REMOVED ∧ c.loc = some "2:7" ∧
        c.loc ≠ some (getLocation c8OldField.astNode)) := by
  refine ⟨by decide, by decide⟩

/-- C8 (amended): every old field absent from the new type yields the
`FIELD_REMOVED` record with the stated message, type-qualified resource
name and old-field deprecation marker, and with location rendered from the
NEW type's AST node (every `FIELD_REMOVED` of this pass carries that
location). -/
theorem fieldRemovedCharacterisation (typeName : String)
    (oldType newType : TypeDef) (f : FieldDef) (hf : f ∈ oldType.getFields)
    (habs : newType.getFields.find? (fun g => g.name == f.name) = none) :
    ({ loc := some (getLocation newType.astNode),
       resourceName := typeName ++ "." ++ f.name,
       type := .FIELD_REMOVED,
       message := "`" ++ typeName ++ "." ++ f.name ++ "` removed from schema",
       wasDeprecated := isDeprecated f.astNode,
       wasRequiredByDirective := none } : Change)
      ∈ findFieldsThatChangedTypeOnObjectOrInterfaceType typeName oldType
          newType ∧
    (∀ c ∈ findFieldsThatChangedTypeOnObjectOrInterfaceType typeName oldType
        newType,
      c.type = .FIELD_REMOVED → c.loc = some (getLocation newType.astNode)) := by
  constructor
  · rw [findFieldsThatChangedTypeOnObjectOrInterfaceType]
    apply List.mem_filterMap.mpr
    refine ⟨f, hf, ?_⟩
    rw [habs]
  · intro c hc htype
    rw [findFieldsThatChangedTypeOnObjectOrInterfaceType] at hc
    obtain ⟨y, hy, hFy⟩ := List.mem_filterMap.mp hc
    cases hfind : newType.getFields.find? (fun g => g.name == y.name) with
    | none =>
        rw [hfind] at hFy
        rw [← Option.some_inj.mp hFy]
    | some nf =>
        simp only [hfind] at hFy
        by_cases hsafe :
            isChangeSafeForObjectOrInterfaceField y.type nf.type = true
        · rw [if_pos hsafe] at hFy
          exact absurd hFy (by simp)
        · rw [if_neg hsafe] at hFy
          rw [← Option.some_inj.mp hFy] at htype
          exact absurd htype (by simp)

/-- Closed instance of the amended C8 on the `User.email` removal. -/
theorem fieldRemovedCharacterisation_witness :
    ({ loc := some (getLocation c8NewType.astNode),
       resourceName := "User" ++ "." ++ c8OldField.name,
       type := .FIELD_REMOVED,
       message := "`" ++ "User" ++ "." ++ c8OldField.name
         ++ "` removed from schema",
       wasDeprecated := isDeprecated c8OldField.astNode,
       wasRequiredByDirective := none } : Change)
      ∈ findFieldsThatChangedTypeOnObjectOrInterfaceType "User" c8OldType
          c8NewType ∧
    (∀ c ∈ findFieldsThatChangedTypeOnObjectOrInterfaceType "User" c8OldType
        c8NewType,
      c.type = .FIELD_REMOVED → c.loc = some (getLocation c8NewType.astNode)) :=
  fieldRemovedCharacterisation "User" c8OldType c8NewType c8OldField
    (List.mem_cons_self _ _) rfl

/-- C9: a parse failure of either input propagates unchanged with no partial
result, and when both inputs parse the comparison returns normally with the
result of the five passes. -/
theorem parseFailurePropagation (buildSchema : String → Except String Schema)
    (a b : String) :
    (∀ e : String, buildSchema a = .error e →
       detectBreakingChanges buildSchema a b = .error e) ∧
    (∀ (S : Schema) (e : String), buildSchema a = .ok S →
       buildSchema b = .error e →
       detectBreakingChanges buildSchema a b = .error e) ∧
    (∀ S T : Schema, buildSchema a = .ok S → buildSchema b = .ok T →
       detectBreakingChanges buildSchema a b
         = .ok (detectChangesOnSchemas S T)) := by
  refine ⟨?_, ?_, ?_⟩
  · intro e he
    rw [detectBreakingChanges, he]
  · intro S e hS he
    rw [detectBreakingChanges, hS, he]
  · intro S T hS hT
    rw [detectBreakingChanges, hS, hT]

def c9Parse : String → Except String Schema :=
  fun s => if s == "bad" then .error "Syntax Error" else .ok { types := [] }

/-- Closed instance of C9 on a parser that rejects the text `bad`. -/
theorem parseFailurePropagation_witness :
    detectBreakingChanges c9Parse "bad" "good" = .error "Syntax Error" ∧
    detectBreakingChanges c9Parse "good" "bad" = .error "Syntax Error" ∧
    detectBreakingChanges c9Parse "good" "good"
      = .ok (detectChangesOnSchemas { types := [] } { types := [] }) :=
  ⟨(parseFailurePropagation c9Parse "bad" "good").1 "Syntax Error" rfl,
   (parseFailurePropagation c9Parse "good" "bad").2.1 { types := [] }
     "Syntax Error" rfl rfl,
   (parseFailurePropagation c9Parse "good" "good").2.2 { types := [] }
     { types := [] } rfl rfl⟩

theorem getLocation_shape (ast : Option ASTNode) :
    ∃ l k : Nat, getLocation ast
      = ToString.toString l ++ ":" ++ ToString.toString k := by
  cases ast with
  | none => exact ⟨0, 0, by decide⟩
  | some n =>
      cases hl : n.loc with
      | none =>
          refine ⟨0, 0, ?_⟩
          simp only [getLocation, hl]
          decide
      | some lc =>
          refine ⟨lc.fst, lc.snd, ?_⟩
          simp only [getLocation, hl]

theorem findRemovedTypes_loc (o n : Schema) :
    ∀ c ∈ findRemovedTypes o n, c.loc = none ∧ c.type = .TYPE_REMOVED := by
  intro c hc
  rw [findRemovedTypes] at hc
  obtain ⟨y, hy, hFy⟩ := List.mem_filterMap.mp hc
  by_cases hskip : (isIntrospectionType y || isSpecifiedScalarType y
      || startsWithDunder y.name) = true
  · rw [if_pos hskip] at hFy
    exact Option.noConfusion hFy
  · rw [if_neg hskip] at hFy
    by_cases habs : (n.getType y.name).isNone = true
    · rw [if_pos habs] at hFy
      rw [← Option.some_inj.mp hFy]
      exact ⟨rfl, rfl⟩
    · rw [if_neg habs] at hFy
      exact Option.noConfusion hFy

theorem findFields_onType_loc (tn : String) (ot nt : TypeDef) :
    ∀ c ∈ findFieldsThatChangedTypeOnObjectOrInterfaceType tn ot nt,
      (∃ ast : Option ASTNode, c.loc = some (getLocation ast)) ∧
      c.type ≠ .TYPE_REMOVED := by
  intro c hc
  rw [findFieldsThatChangedTypeOnObjectOrInterfaceType] at hc
  obtain ⟨y, hy, hFy⟩ := List.mem_filterMap.mp hc
  cases hfind : nt.getFields.find? (fun g => g.name == y.name) with
  | none =>
      rw [hfind] at hFy
      rw [← Option.some_inj.mp hFy]
      exact ⟨⟨nt.astNode, rfl⟩, by simp⟩
  | some nf =>
      simp only [hfind] at hFy
      by_cases hsafe : isChangeSafeForObjectOrInterfaceField y.type nf.type
          = true
      · rw [if_pos hsafe] at hFy
        exact absurd hFy (by simp)
      · rw [if_neg hsafe] at hFy
        rw [← Option.some_inj.mp hFy]
        exact ⟨⟨nf.astNode, rfl⟩, by simp⟩

theorem findTypesThatChangedKind_loc (o n : Schema) :
    ∀ c ∈ findTypesThatChangedKind o n,
      (∃ ast : Option ASTNode, c.loc = some (getLocation ast)) ∧
      c.type ≠ .TYPE_REMOVED := by
  intro c hc
  rw [findTypesThatChangedKind] at hc
  obtain ⟨y, hy, hcy⟩ := List.mem_flatMap.mp hc
  cases hget : n.getType y.name with
  | none => simp [hget] at hcy
  | some v =>
      simp only [hget] at hcy
      by_cases hkind : (y.kind == v.kind) = true
      · simp [hkind] at hcy
      · simp only [Bool.not_eq_true] at hkind
        by_cases hoi : ((isObjectType y && isInterfaceType v)
            || (isInterfaceType y && isObjectType v)) = true
        · simp only [hkind, Bool.false_eq_true, if_false, hoi, if_true] at hcy
          exact findFields_onType_loc y.name y v c hcy
        · simp only [Bool.not_eq_true] at hoi
          simp only [hkind, Bool.false_eq_true, if_false, hoi] at hcy
          rw [List.mem_singleton.mp hcy]
          exact ⟨⟨v.astNode, rfl⟩, by simp [typeChangedKindChange]⟩

theorem findFieldsThatChangedTypeOnObjectOrInterfaceTypes_loc (o n : Schema) :
    ∀ c ∈ findFieldsThatChangedTypeOnObjectOrInterfaceTypes o n,
      (∃ ast : Option ASTNode, c.loc = some (getLocation ast)) ∧
      c.type ≠ .TYPE_REMOVED := by
  intro c hc
  rw [findFieldsThatChangedTypeOnObjectOrInterfaceTypes] at hc
  obtain ⟨y, hy, hcy⟩ := List.mem_flatMap.mp hc
  cases hget : n.getType y.name with
  | none => simp [hget] at hcy
  | some v =>
      simp only [hget] at hcy
      by_cases hscope : sameObjectOrInterfaceScope y v = true
      · simp only [hscope, if_true] at hcy
        exact findFields_onType_loc y.name y v c hcy
      · simp [hscope] at hcy

theorem findValuesRemovedFromEnums_loc (o n : Schema) :
    ∀ c ∈ findValuesRemovedFromEnums o n,
      (∃ ast : Option ASTNode, c.loc = some (getLocation ast)) ∧
      c.type ≠ .TYPE_REMOVED := by
  intro c hc
  rw [findValuesRemovedFromEnums] at hc
  obtain ⟨y, hy, hcy⟩ := List.mem_flatMap.mp hc
  cases hget : n.getType y.name with
  | none => simp [hget] at hcy
  | some v =>
      simp only [hget] at hcy
      cases y with
      | enum yn yv ya =>
          cases v with
          | enum vn vv va =>
              obtain ⟨w, hw, hFw⟩ := List.mem_filterMap.mp hcy
              by_cases hmem : (vv.map EnumValueDef.name).contains w.name = true
              · rw [if_pos hmem] at hFw
                exact Option.noConfusion hFw
              · rw [if_neg hmem] at hFw
                rw [← Option.some_inj.mp hFw]
                exact ⟨⟨va, rfl⟩, by simp⟩
          | scalar _ _ => simp at hcy
          | object _ _ _ => simp at hcy
          | interface _ _ _ => simp at hcy
          | union _ _ => simp at hcy
          | inputObject _ _ => simp at hcy
      | scalar _ _ => simp at hcy
      | object _ _ _ => simp at hcy
      | interface _ _ _ => simp at hcy
      | union _ _ => simp at hcy
      | inputObject _ _ => simp at hcy

theorem oldArgBreakingChange_loc (tn fn : String) (ast : Option ASTNode)
    (newArgs : List ArgumentDef) (x : ArgumentDef) (c : Change)
    (h : oldArgBreakingChange tn fn ast newArgs x = some c) :
    (∃ a : Option ASTNode, c.loc = some (getLocation a)) ∧
    c.type ≠ .TYPE_REMOVED := by
  rw [oldArgBreakingChange] at h
  cases hfind : newArgs.find? (fun arg => arg.name == x.name) with
  | none =>
      rw [hfind] at h
      rw [← Option.some_inj.mp h]
      exact ⟨⟨ast, rfl⟩, by simp⟩
  | some na =>
      simp only [hfind] at h
      by_cases hsafe :
          isChangeSafeForInputObjectFieldOrFieldArg x.type na.type = true
      · rw [if_pos hsafe] at h
        exact absurd h (by simp)
      · rw [if_neg hsafe] at h
        rw [← Option.some_inj.mp h]
        refine ⟨⟨na.astNode, rfl⟩, ?_⟩
        simp only []
        split <;> simp

theorem oldArgDangerousChange_loc (tn fn : String) (ast : Option ASTNode)
    (newArgs : List ArgumentDef) (x : ArgumentDef) (c : Change)
    (h : oldArgDangerousChange tn fn ast newArgs x = some c) :
    (∃ a : Option ASTNode, c.loc = some (getLocation a)) ∧
    c.type ≠ .TYPE_REMOVED := by
  rw [oldArgDangerousChange] at h
  cases hfind : newArgs.find? (fun arg => arg.name == x.name) with
  | none =>
      rw [hfind] at h
      exact Option.noConfusion h
  | some na =>
      simp only [hfind] at h
      by_cases hsafe :
          isChangeSafeForInputObjectFieldOrFieldArg x.type na.type = true
      · rw [if_pos hsafe] at h
        cases hd : x.defaultValue with
        | none => rw [hd] at h; exact Option.noConfusion h
        | some v =>
            simp only [hd] at h
            by_cases heq : (match na.defaultValue with
                | some newDefault => isDefaultValueEqual v newDefault
                | none => false) = true
            · rw [if_pos heq] at h
              exact Option.noConfusion h
            · rw [if_neg heq] at h
              rw [← Option.some_inj.mp h]
              exact ⟨⟨na.astNode, rfl⟩, by simp⟩
      · rw [if_neg hsafe] at h
        exact Option.noConfusion h

theorem newArgAddedBreakingChange_loc (tn fn : String) (f : FieldDef)
    (x : ArgumentDef) (c : Change)
    (h : newArgAddedBreakingChange tn fn f x = some c) :
    (∃ a : Option ASTNode, c.loc = some (getLocation a)) ∧
    c.type ≠ .TYPE_REMOVED := by
  rw [newArgAddedBreakingChange] at h
  cases hfind : f.args.find? (fun arg => arg.name == x.name) with
  | some _ => rw [hfind] at h; exact Option.noConfusion h
  | none =>
      rw [hfind] at h
      by_cases hreq : isRequiredArgument x = true
      · rw [if_pos hreq] at h
        rw [← Option.some_inj.mp h]
        exact ⟨⟨x.astNode, rfl⟩, by simp⟩
      · rw [if_neg hreq] at h
        exact Option.noConfusion h

theorem newArgAddedDangerousChange_loc (tn fn : String) (f : FieldDef)
    (x : ArgumentDef) (c : Change)
    (h : newArgAddedDangerousChange tn fn f x = some c) :
    (∃ a : Option ASTNode, c.loc = some (getLocation a)) ∧
    c.type ≠ .TYPE_REMOVED := by
  rw [newArgAddedDangerousChange] at h
  cases hfind : f.args.find? (fun arg => arg.name == x.name) with
  | some _ => rw [hfind] at h; exact Option.noConfusion h
  | none =>
      rw [hfind] at h
      by_cases hreq : isRequiredArgument x = true
      · rw [if_pos hreq] at h
        exact Option.noConfusion h
      · rw [if_neg hreq] at h
        rw [← Option.some_inj.mp h]
        exact ⟨⟨x.astNode, rfl⟩, by simp⟩

theorem findArgChangesBreaking_loc (o n : Schema) :
    ∀ c ∈ findArgChangesBreaking o n,
      (∃ ast : Option ASTNode, c.loc = some (getLocation ast)) ∧
      c.type ≠ .TYPE_REMOVED := by
  intro c hc
  rw [findArgChangesBreaking] at hc
  obtain ⟨y, hy, hcy⟩ := List.mem_flatMap.mp hc
  cases hget : n.getType y.name with
  | none => simp [hget] at hcy
  | some v =>
      simp only [hget] at hcy
      rw [argChangesBreakingForType] at hcy
      by_cases hscope : sameObjectOrInterfaceScope y v = true
      · simp only [hscope, if_true] at hcy
        obtain ⟨f, hf, hcf⟩ := List.mem_flatMap.mp hcy
        cases hfind : v.getFields.find? (fun g => g.name == f.name) with
        | none => simp [hfind] at hcf
        | some nf =>
            simp only [hfind] at hcf
            rw [argChangesBreakingForField] at hcf
            rcases List.mem_append.mp hcf with h | h
            · obtain ⟨x, hx, hFx⟩ := List.mem_filterMap.mp h
              exact oldArgBreakingChange_loc y.name f.name nf.astNode nf.args
                x c hFx
            · obtain ⟨x, hx, hFx⟩ := List.mem_filterMap.mp h
              exact newArgAddedBreakingChange_loc y.name f.name f x c hFx
      · simp [hscope] at hcy

theorem findArgChangesDangerous_loc (o n : Schema) :
    ∀ c ∈ findArgChangesDangerous o n,
      (∃ ast : Option ASTNode, c.loc = some (getLocation ast)) ∧
      c.type ≠ .TYPE_REMOVED := by
  intro c hc
  rw [findArgChangesDangerous] at hc
  obtain ⟨y, hy, hcy⟩ := List.mem_flatMap.mp hc
  cases hget : n.getType y.name with
  | none => simp [hget] at hcy
  | some v =>
      simp only [hget] at hcy
      rw [argChangesDangerousForType] at hcy
      by_cases hscope : sameObjectOrInterfaceScope y v = true
      · simp only [hscope, if_true] at hcy
        obtain ⟨f, hf, hcf⟩ := List.mem_flatMap.mp hcy
        cases hfind : v.getFields.find? (fun g => g.name == f.name) with
        | none => simp [hfind] at hcf
        | some nf =>
            simp only [hfind] at hcf
            rw [argChangesDangerousForField] at hcf
            rcases List.mem_append.mp hcf with h | h
            · obtain ⟨x, hx, hFx⟩ := List.mem_filterMap.mp h
              exact oldArgDangerousChange_loc y.name f.name y.astNode nf.args
                x c hFx
            · obtain ⟨x, hx, hFx⟩ := List.mem_filterMap.mp h
              exact newArgAddedDangerousChange_loc y.name f.name f x c hFx
      · simp [hscope] at hcy

theorem locCase_removed {c : Change} (h1 : c.loc = none)
    (h2 : c.type = .TYPE_REMOVED) :
    (c.loc = none ↔ c.type = .TYPE_REMOVED) ∧
    (c.type ≠ .TYPE_REMOVED →
      ∃ l k : Nat,
        c.loc = some (ToString.toString l ++ ":" ++ ToString.toString k)) :=
  ⟨⟨fun _ => h2, fun _ => h1⟩, fun h => absurd h2 h⟩

theorem locCase_present {c : Change}
    (h1 : ∃ ast : Option ASTNode, c.loc = some (getLocation ast))
    (h2 : c.type ≠ .TYPE_REMOVED) :
    (c.loc = none ↔ c.type = .TYPE_REMOVED) ∧
    (c.type ≠ .TYPE_REMOVED →
      ∃ l k : Nat,
        c.loc = some (ToString.toString l ++ ":" ++ ToString.toString k)) := by
  obtain ⟨ast, hast⟩ := h1
  constructor
  · constructor
    · intro hn
      rw [hast] at hn
      exact Option.noConfusion hn
    · intro ht
      exact absurd ht h2
  · intro _
    obtain ⟨l, k, hlk⟩ := getLocation_shape ast
    exact ⟨l, k, by rw [hast, hlk]⟩

/-- C10: in the comparison's output, a change's loc is absent exactly when
its category is `TYPE_REMOVED`; every other change carries a defined
`line:column` string; and an unresolvable AST position renders as the
fallback `0:0` rather than an absent loc. -/
theorem locPresenceInvariant (fromSchema toSchema : Schema) :
    (∀ c ∈ (detectChangesOnSchemas fromSchema toSchema).fst
        ++ (detectChangesOnSchemas fromSchema toSchema).snd,
      (c.loc = none ↔ c.type = .TYPE_REMOVED) ∧
      (c.type ≠ .TYPE_REMOVED →
        ∃ l k : Nat,
          c.loc = some (ToString.toString l ++ ":" ++ ToString.toString k))) ∧
    getLocation none = "0:0" ∧
    (∀ nd : ASTNode, nd.loc = none → getLocation (some nd) = "0:0") := by
  refine ⟨?_, by decide, ?_⟩
  · intro c hc
    simp only [detectChangesOnSchemas] at hc
    rcases List.mem_append.mp hc with h | h
    · rcases List.mem_append.mp h with h | h
      · rcases List.mem_append.mp h with h | h
        · rcases List.mem_append.mp h with h | h
          · rcases List.mem_append.mp h with h | h
            · obtain ⟨h1, h2⟩ := findRemovedTypes_loc fromSchema toSchema c h
              exact locCase_removed h1 h2
            · obtain ⟨h1, h2⟩ :=
                findTypesThatChangedKind_loc fromSchema toSchema c h
              exact locCase_present h1 h2
          · obtain ⟨h1, h2⟩ :=
              findFieldsThatChangedTypeOnObjectOrInterfaceTypes_loc fromSchema
                toSchema c h
            exact locCase_present h1 h2
        · obtain ⟨h1, h2⟩ := findArgChangesBreaking_loc fromSchema toSchema c h
          exact locCase_present h1 h2
      · obtain ⟨h1, h2⟩ := findValuesRemovedFromEnums_loc fromSchema toSchema c h
        exact locCase_present h1 h2
    · obtain ⟨h1, h2⟩ := findArgChangesDangerous_loc fromSchema toSchema c h
      exact locCase_present h1 h2
  · intro nd hnd
    rw [getLocation, hnd]

/-- Closed instance of C10: in the comparison dropping `Post`, the
`TYPE_REMOVED` record has an absent loc, and the fallback location is
`0:0`. -/
theorem locPresenceInvariant_witness :
    ((typeRemovedChange c7Post).loc = none ↔
      (typeRemovedChange c7Post).type = .TYPE_REMOVED) ∧
    getLocation none = "0:0" := by
  have h := locPresenceInvariant c7OldSchema c7NewSchema
  exact ⟨(h.1 (typeRemovedChange c7Post) (by decide)).1, h.2.1⟩
